import Mathlib

/-!
# Verification of `multiecho/combination.py`

A shallow embedding of the multi-echo combination tool
(`multiecho/combination.py`) and proofs about the claims of its
specification.

Modelling decisions:

* Voxel values, echo times and weights are modelled by `EF`, an
  "extended float": an exact rational together with the IEEE-754 special
  values `+inf`, `-inf` and `nan`.  Arithmetic on finite values is exact
  (no rounding or overflow); the special values follow IEEE-754 / numpy
  semantics, which is what the division-by-zero and `nan_to_num`
  behaviour of the program depends on.
* A NIfTI image is either 3-D (`Image.vol3`, a flat list of spatial
  voxels) or 4-D (`Image.vol4`, per spatial voxel a temporal series).
  The three spatial axes are flattened into one voxel list: every
  operation the program performs on loaded data is voxel-wise in the
  spatial axes, so only the voxel count matters for shape checks.
* Fallible Python behaviour (uncaught `IndexError` / `TypeError` /
  `ValueError` / `ZeroDivisionError`) is modelled with `Except PyErr`.
* Logging and file-system side effects (globbing, reading, writing,
  output-name computation) are outside the embedded core; the glob
  result arrives as the input list `files` (filename-sorted, each file
  paired with its sidecar `EchoTime`).
-/

attribute [local semireducible] Rat.mul Rat.add Rat.sub Rat.inv

deriving instance DecidableEq for Except

/-- Python exceptions that the embedded code can raise (uncaught). -/
inductive PyErr where
  | indexError
  | typeError
  | valueError
  | zeroDivisionError
deriving DecidableEq, Repr

/-- Extended float: exact rational finite values plus the IEEE special
values.  Finite arithmetic is exact; special values follow numpy. -/
inductive EF where
  | fin (q : ℚ)
  | pinf
  | ninf
  | nan
deriving DecidableEq, Repr

namespace EF

/-- `np.isfinite`. -/
def isFinite : EF → Bool
  | fin _ => true
  | _ => false

/-- The rational value of a finite `EF` (0 on the special values). -/
def toQ : EF → ℚ
  | fin q => q
  | _ => 0

/-- IEEE addition (single unsigned zero). -/
def add : EF → EF → EF
  | nan, _ => nan
  | _, nan => nan
  | fin a, fin b => fin (a + b)
  | fin _, pinf => pinf
  | fin _, ninf => ninf
  | pinf, fin _ => pinf
  | ninf, fin _ => ninf
  | pinf, pinf => pinf
  | ninf, ninf => ninf
  | pinf, ninf => nan
  | ninf, pinf => nan

/-- IEEE negation. -/
def neg : EF → EF
  | fin a => fin (-a)
  | pinf => ninf
  | ninf => pinf
  | nan => nan

/-- IEEE subtraction. -/
def sub (x y : EF) : EF := add x (neg y)

/-- IEEE multiplication (`inf * 0 = nan`). -/
def mul : EF → EF → EF
  | nan, _ => nan
  | _, nan => nan
  | fin a, fin b => fin (a * b)
  | fin a, pinf => if 0 < a then pinf else if a < 0 then ninf else nan
  | fin a, ninf => if 0 < a then ninf else if a < 0 then pinf else nan
  | pinf, fin b => if 0 < b then pinf else if b < 0 then ninf else nan
  | ninf, fin b => if 0 < b then ninf else if b < 0 then pinf else nan
  | pinf, pinf => pinf
  | pinf, ninf => ninf
  | ninf, pinf => ninf
  | ninf, ninf => pinf

/-- IEEE division; the model has one (positive) zero, so `x / 0`
follows numpy's `x / 0.0`: `pos/0 = +inf`, `neg/0 = -inf`, `0/0 = nan`. -/
def div : EF → EF → EF
  | nan, _ => nan
  | _, nan => nan
  | fin a, fin b =>
      if b = 0 then (if 0 < a then pinf else if a < 0 then ninf else nan)
      else fin (a / b)
  | fin _, pinf => fin 0
  | fin _, ninf => fin 0
  | pinf, fin b => if 0 ≤ b then pinf else ninf
  | ninf, fin b => if 0 ≤ b then ninf else pinf
  | pinf, _ => nan
  | ninf, _ => nan

/-- Exact square root on perfect rational squares.  On non-squares this
returns the rational built from the integer square roots of numerator
and denominator; all concrete evaluations in this development happen at
perfect squares, and the combination logic only ever depends on the
sign of a standard deviation (`0`, positive), which this preserves. -/
def ratSqrt (q : ℚ) : ℚ := (Nat.sqrt q.num.toNat : ℚ) / (Nat.sqrt q.den : ℚ)

/-- `np.sqrt` on the extended floats. -/
def sqrtE : EF → EF
  | fin q => if q < 0 then nan else fin (ratSqrt q)
  | pinf => pinf
  | ninf => nan
  | nan => nan

/-- Sort key used by `np.argsort`: `-inf < finite < +inf < nan`
(numpy sorts `nan` last). -/
def rankKey : EF → ℕ
  | ninf => 0
  | fin _ => 1
  | pinf => 2
  | nan => 3

/-- The comparison `np.argsort` sorts by (ascending, `nan` last). -/
def leKey (x y : EF) : Bool :=
  match x, y with
  | fin a, fin b => a ≤ b
  | _, _ => rankKey x ≤ rankKey y

end EF

/-- `np.sum` of a 1-D array (exact on finite values). -/
def npSum (xs : List EF) : EF := xs.foldr EF.add (EF.fin 0)

/-- `ndarray.mean(axis=-1)` on one cell: sum divided by length
(numpy's mean of an empty slice is `0/0 = nan`). -/
def npMean (xs : List EF) : EF := EF.div (npSum xs) (EF.fin xs.length)

/-- `ndarray.std(axis=-1)` on one cell (population standard deviation,
numpy's default `ddof=0`): square root of the mean squared deviation. -/
def npStd (xs : List EF) : EF :=
  let m := npMean xs
  EF.sqrtE (npMean (xs.map (fun x => EF.mul (EF.sub x m) (EF.sub x m))))

/-- The Python slice `xs[-n:]` (start index `-n`), with Python's
clamping rules: for `n ≥ 1` this is the last `min n (length xs)`
elements; `xs[-0:]` is the whole list; a negative `n` drops a prefix. -/
def pySliceLast (n : ℤ) (xs : List α) : List α :=
  let s : ℤ := -n
  if s < 0 then xs.drop (max ((xs.length : ℤ) + s) 0).toNat
  else xs.drop (min s (xs.length : ℤ)).toNat

/-- The ordering of `(index, value)` pairs that `np.argsort` sorts by:
compare the values with `EF.leKey`. -/
def pairLe (p q : ℕ × EF) : Prop := EF.leKey p.2 q.2 = true

instance : DecidableRel pairLe := fun p q => by
  unfold pairLe; infer_instance

/-- `np.argsort` (ascending, `nan` last): stable insertion sort of the
enumerated values, keeping the indices.  numpy's default sort is not
stable on ties; no verified claim depends on the order among equal echo
times. -/
def argsortEF (xs : List EF) : List ℕ :=
  (List.insertionSort pairLe xs.enum).map Prod.fst

/-- Left-to-right effectful map over `Except`: the first raised
exception aborts the whole list (a Python list comprehension). -/
def exMap (f : α → Except PyErr β) : List α → Except PyErr (List β)
  | [] => .ok []
  | x :: xs =>
      match f x with
      | .error e => .error e
      | .ok y =>
          match exMap f xs with
          | .error e => .error e
          | .ok ys => .ok (y :: ys)

/-- Fancy indexing `np.array(xs)[idx]`: out-of-range raises. -/
def npTake (xs : List α) (idx : List ℕ) : Except PyErr (List α) :=
  exMap (fun i => match xs.get? i with
    | some x => Except.ok x
    | none => Except.error PyErr.indexError) idx

/-- A loaded NIfTI image: 3-D (flat list of spatial voxels) or 4-D
(per spatial voxel, its temporal series).  The three spatial axes are
flattened into one voxel axis; every operation of the program is
voxel-wise in the spatial axes, so only the voxel count is needed for
the shape checks. -/
inductive Image where
  | vol3 (vox : List EF)
  | vol4 (vox : List (List EF))
deriving DecidableEq, Repr

namespace Image

/-- `echo.ndim`. -/
def ndim : Image → ℕ
  | vol3 _ => 3
  | vol4 _ => 4

/-- Spatial voxel count (product of the first three shape entries). -/
def nvox : Image → ℕ
  | vol3 v => v.length
  | vol4 v => v.length

/-- `echo.shape[3]` of a well-formed 4-D image (read off the first
voxel's series). -/
def dim4 : Image → ℕ
  | vol3 _ => 0
  | vol4 v => (v.headD []).length

/-- Well-formedness: in a 4-D image all temporal series have the same
length (an ndarray is rectangular). -/
def wfb : Image → Bool
  | vol3 _ => true
  | vol4 v => v.all (fun s => s.length = (v.headD []).length)

/-- All voxel values are finite. -/
def allFinite : Image → Bool
  | vol3 v => v.all EF.isFinite
  | vol4 v => v.all (fun s => s.all EF.isFinite)

end Image

/-- `load_me_data` (combination.py lines 28-49) after the collaborator
has produced the filename-sorted glob result.  `files` is that list,
each data file paired with its sidecar `EchoTime`; `tes` is the
caller-supplied weights list (`None` or a Python list, where an empty
list is falsy and also falls back to the sidecar times).  Both the
echo-time array and the file array are indexed by the same `argsort`
permutation, and indexing the file array can raise `IndexError` when
more echo times than files were supplied. -/
def loadMEData (files : List (Image × EF)) (tes : Option (List EF)) :
    Except PyErr (List (Image × EF)) :=
  let TEs := match tes with
    | some ts => if ts.isEmpty then files.map Prod.snd else ts
    | none => files.map Prod.snd
  let s := argsortEF TEs
  match npTake TEs s with
  | .error e => .error e
  | .ok TEs2 =>
      match npTake (files.map Prod.fst) s with
      | .error e => .error e
      | .ok files2 => .ok (files2.zip TEs2)

/-- `np.stack(arrs, axis=-1)` for a list of 1-D arrays of a common
length: element `i` of the result collects element `i` of every input.
(The default is never reached when the shapes agree.) -/
def stackLast (arrs : List (List α)) (dflt : α) : List (List α) :=
  match arrs.head? with
  | none => []
  | some v0 => (List.range v0.length).map (fun i => arrs.map (fun v => v.getD i dflt))

/-- `paid_weights` (combination.py lines 52-67).  `w(tCNR) = TE * tSNR`:
for every echo, the per-voxel `TE * mean / std` over the temporal window
`data[..., -n_vols:]`, where `n_vols` was first clamped by the FIRST
echo's `shape[3]`.  An empty echo list or a 3-D first echo raises
`IndexError` (`echoes[0][0].shape[3]`); a 3-D later echo produces a
lower-rank weight map so that the final `np.stack` raises `ValueError`,
as does a spatial-shape mismatch.  Result: voxel-major, per voxel the
per-echo weights (the `np.stack(..., axis=-1)` layout). -/
def paidWeights (echoes : List (Image × EF)) (nvols : ℤ) :
    Except PyErr (List (List EF)) :=
  match echoes.head? with
  | none => .error .indexError
  | some (Image.vol3 _, _) => .error .indexError
  | some (Image.vol4 v0, _) =>
    let n2 : ℤ := min nvols ((v0.headD []).length : ℤ)
    match exMap (fun pe => match pe.1 with
      | Image.vol3 _ => Except.error PyErr.valueError
      | Image.vol4 v => Except.ok (v.map (fun series =>
          let w := pySliceLast n2 series
          EF.div (EF.mul pe.2 (npMean w)) (npStd w)))) echoes with
    | .error e => .error e
    | .ok maps =>
        if maps.all (fun m => m.length == v0.length) then
          .ok (stackLast maps (EF.fin 0))
        else .error .valueError

/-- The `weights` argument eventually handed to `np.average`: `None`
(uniform), a per-echo scalar sequence, or a full voxel-wise array
(voxel-major: voxel, then timepoint, then echo). -/
inductive WeightSpec where
  | noneW
  | scalars (ws : List EF)
  | voxelwise (w : List (List (List EF)))
deriving DecidableEq, Repr

/-- The weight-computation block of `me_combine` (lines 112-124).
For `PAID` on data that is not 4-D, the error log's f-string evaluates
`me_data[0][0].shape()` — calling a tuple — so the line itself raises
`TypeError` (and execution never reaches `paid_weights`).  For an
unknown algorithm an error is logged but execution continues with the
caller-supplied `weights` (still in their original, unsorted order). -/
def computeWspec (algorithm : String) (medata : List (Image × EF))
    (callerWeights : Option (List EF)) (volumes : ℤ) :
    Except PyErr WeightSpec :=
  if algorithm = "average" then .ok .noneW
  else if algorithm = "PAID" then
    match medata.head? with
    | none => .error .indexError
    | some (img0, _) =>
      if img0.ndim < 4 then .error .typeError
      else
        match paidWeights medata volumes with
        | .error e => .error e
        | .ok w =>
            -- np.tile(weights[:, :, :, np.newaxis, :], (1, 1, 1, shape3, 1))
            .ok (.voxelwise (w.map (fun perEcho => List.replicate img0.dim4 perEcho)))
  else if algorithm = "TE" then .ok (.scalars (medata.map Prod.snd))
  else .ok (match callerWeights with
    | none => .noneW
    | some ws => .scalars ws)

/-- `np.diff` on the list of temporal sample counts. -/
def npDiff (xs : List ℤ) : List ℤ := (xs.zip xs.tail).map (fun p => p.2 - p.1)

/-- The truncation-recovery test of line 131:
`sum(np.diff(dim4)==-1) == 1 and sum(np.diff(dim4)==0) == len(dim4)-2`. -/
def recoverable (dim4 : List ℤ) : Bool :=
  ((npDiff dim4).countP (fun d => d == -1) == 1) &&
  (((npDiff dim4).countP (fun d => d == 0) : ℤ) == (dim4.length : ℤ) - 2)

/-- The stacked 4-D echo data `np.stack([...], axis=-1)`: voxel-major,
then timepoint, then echo.  Shapes are read off the first echo; use
only under `stackShapeOk4`. -/
def stack4 (vdata : List (List (List EF))) : List (List (List EF)) :=
  match vdata.head? with
  | none => []
  | some v0 =>
    (List.range v0.length).map (fun i =>
      (List.range ((v0.headD []).length)).map (fun t =>
        vdata.map (fun v => (v.getD i []).getD t (EF.fin 0))))

/-- `np.stack` shape agreement for 4-D echoes: every echo has the first
echo's voxel count and every temporal series has the first echo's
series length. -/
def stackShapeOk4 (vdata : List (List (List EF))) : Bool :=
  match vdata.head? with
  | none => false
  | some v0 => vdata.all (fun v => v.length == v0.length
      && v.all (fun s => s.length == (v0.headD []).length))

/-- Result of the truncation/stacking block: the stacked echo array
(3-D or 4-D case), or the `return 1` of an inconsistent acquisition. -/
inductive StackResult where
  | stacked3 (a : List (List EF))
  | stacked4 (a : List (List (List EF)))
  | inconsistent
deriving DecidableEq, Repr

/-- The truncation + stacking block of `me_combine` (lines 126-140).
When the first echo is 4-D: collect `echo.shape[3]` of every echo
(a 3-D echo there raises `IndexError`); if the counts differ, either
every echo is truncated to the minimum count (single-truncation
pattern) or the run returns error code 1; finally the data is sliced
to `0:dim4[0]` samples and stacked (`ValueError` on shape mismatch).
When the first echo is 3-D the data is stacked as is (a later 4-D echo
makes `np.stack` raise `ValueError`). -/
def stackAndTruncate (medata : List (Image × EF)) : Except PyErr StackResult :=
  match medata.head? with
  | none => .error .indexError
  | some (img0, _) =>
    if img0.ndim > 3 then
      match exMap (fun pe => match pe.1 with
        | Image.vol4 v => Except.ok v
        | Image.vol3 _ => Except.error PyErr.indexError) medata with
      | .error e => .error e
      | .ok vdata =>
        let dim4 : List ℤ := vdata.map (fun v => ((v.headD []).length : ℤ))
        if dim4.dedup.length > 1 then
          if recoverable dim4 then
            let k := (dim4.foldr min (dim4.headD 0)).toNat
            let sliced := vdata.map (fun v => v.map (List.take k))
            if stackShapeOk4 sliced then .ok (.stacked4 (stack4 sliced))
            else .error .valueError
          else .ok .inconsistent
        else
          let k := (dim4.headD 0).toNat
          let sliced := vdata.map (fun v => v.map (List.take k))
          if stackShapeOk4 sliced then .ok (.stacked4 (stack4 sliced))
          else .error .valueError
    else
      match exMap (fun pe => match pe.1 with
        | Image.vol3 v => Except.ok v
        | Image.vol4 _ => Except.error PyErr.valueError) medata with
      | .error e => .error e
      | .ok arrs =>
        if arrs.all (fun v => v.length == (arrs.headD []).length) then
          .ok (.stacked3 (stackLast arrs (EF.fin 0)))
        else .error .valueError

/-- One cell of `np.average(..., weights=w)`: the weighted sum divided
by the weight sum (numpy normalizes the weights itself). -/
def avgVec (ds ws : List EF) : EF :=
  EF.div (npSum (List.zipWith EF.mul ds ws)) (npSum ws)

/-- Shape equality of two 2-D nested lists. -/
def sameShape2 (a b : List (List EF)) : Bool :=
  a.length == b.length && (a.zip b).all (fun p => p.1.length == p.2.length)

/-- Shape equality of two 3-D nested lists. -/
def sameShape3 (a b : List (List (List EF))) : Bool :=
  a.length == b.length && (a.zip b).all (fun p => sameShape2 p.1 p.2)

/-- `np.average(a, axis=-1, weights=w)` on a stacked 4-D echo array
(voxel, timepoint, echo).  With `weights=None` this is the plain mean
over the echo axis.  1-D weights must match the echo-axis length
(`ValueError` otherwise) and must not sum to zero
(`ZeroDivisionError`).  An array of weights must have the very shape of
`a` (`TypeError`: 1-D weights expected when shapes differ), and no cell
weight-sum may be exactly zero. -/
def npAverage4 (a : List (List (List EF))) (w : WeightSpec) :
    Except PyErr (List (List EF)) :=
  match w with
  | .noneW => .ok (a.map (fun vox => vox.map npMean))
  | .scalars ws =>
      if ws.length == ((a.headD []).headD []).length then
        if npSum ws == EF.fin 0 then .error .zeroDivisionError
        else .ok (a.map (fun vox => vox.map (fun ds => avgVec ds ws)))
      else .error .valueError
  | .voxelwise wv =>
      if sameShape3 wv a then
        if wv.any (fun vox => vox.any (fun ws => npSum ws == EF.fin 0)) then
          .error .zeroDivisionError
        else .ok ((a.zip wv).map (fun pv =>
          (pv.1.zip pv.2).map (fun pt => avgVec pt.1 pt.2)))
      else .error .typeError

/-- `np.average(a, axis=-1, weights=w)` on a stacked 3-D echo array
(voxel, echo); same rules as `npAverage4`. -/
def npAverage3 (a : List (List EF)) (w : WeightSpec) :
    Except PyErr (List EF) :=
  match w with
  | .noneW => .ok (a.map npMean)
  | .scalars ws =>
      if ws.length == (a.headD []).length then
        if npSum ws == EF.fin 0 then .error .zeroDivisionError
        else .ok (a.map (fun ds => avgVec ds ws))
      else .error .valueError
  | .voxelwise _ => .error .typeError

/-- `np.finfo(np.float64).max`, the replacement value `np.nan_to_num`
uses for `+inf` (negated for `-inf`). -/
def MAXF : ℚ := 2 ^ 1024 - 2 ^ 971

/-- `np.nan_to_num` with its default arguments (line 146): `nan`
becomes 0, while `+inf`/`-inf` become the largest/lowest finite
float — NOT 0.  Every result is finite. -/
def nanToNum : EF → EF
  | .nan => .fin 0
  | .pinf => .fin MAXF
  | .ninf => .fin (-MAXF)
  | .fin q => .fin q

/-- The observable result of a `me_combine` run that did not raise an
exception: either the combined image is produced and written
(`return 0`), or the acquisition was inconsistent and the combination
was skipped (`return 1`, no output). -/
inductive MEOutcome where
  | ok (combined : Image)
  | inconsistent
deriving DecidableEq, Repr

/-- The integer error code `me_combine` returns for an outcome. -/
def MEOutcome.statusOf : MEOutcome → ℕ
  | .ok _ => 0
  | .inconsistent => 1

/-- `me_combine` (combination.py lines 70-163).  `files` stands for the
filename-sorted glob result together with the sidecar echo times; the
logging, output-name computation and file writing are external
collaborators and have no bearing on the outcome value.  The returned
status is 0 (`MEOutcome.ok` with the combined image), 1
(`MEOutcome.inconsistent`), or an uncaught Python exception. -/
def meCombine (files : List (Image × EF)) (algorithm : String)
    (weights : Option (List EF)) (volumes : ℤ) : Except PyErr MEOutcome :=
  match loadMEData files weights with
  | .error e => .error e
  | .ok medata =>
    -- datafile = datafiles[0] (line 103): IndexError on an empty glob result
    if medata.isEmpty then .error .indexError
    else
      -- compute the weights (lines 112-124)
      match computeWspec algorithm medata weights volumes with
      | .error e => .error e
      | .ok wspec =>
        -- truncate incomplete acquisitions and stack (lines 126-140)
        match stackAndTruncate medata with
        | .error e => .error e
        | .ok .inconsistent => .ok .inconsistent
        | .ok (.stacked3 a) =>
            match npAverage3 a wspec with
            | .error e => .error e
            | .ok c => .ok (.ok (Image.vol3 (c.map nanToNum)))
        | .ok (.stacked4 a) =>
            match npAverage4 a wspec with
            | .error e => .error e
            | .ok c => .ok (.ok (Image.vol4 (c.map (fun r => r.map nanToNum))))

/-- The last `k` elements of a list (spec-side description of a
temporal-tail calibration window). -/
def lastN (k : ℕ) (xs : List α) : List α := xs.drop (xs.length - k)

/-- The voxel data of a 4-D image (empty for a 3-D image). -/
def echoData : Image → List (List EF)
  | Image.vol4 v => v
  | Image.vol3 _ => []

/-- The voxel data of a 3-D image (empty for a 4-D image). -/
def echoData3 : Image → List EF
  | Image.vol3 v => v
  | Image.vol4 _ => []

/-- Modelled from the spec's words (§4.2), for the refinement
comparison with `paidWeights`: identical except that the calibration
window of EACH echo is its last `min nCalibrationVolumes
echo.sampleCount` temporal samples, the clamp using THAT echo's own
sample count rather than the first echo's. -/
def paidWeightsSpec (echoes : List (Image × EF)) (nvols : ℤ) :
    Except PyErr (List (List EF)) :=
  match echoes.head? with
  | none => .error .indexError
  | some (Image.vol3 _, _) => .error .indexError
  | some (Image.vol4 v0, _) =>
    match exMap (fun pe => match pe.1 with
      | Image.vol3 _ => Except.error PyErr.valueError
      | Image.vol4 v => Except.ok (v.map (fun series =>
          let w := pySliceLast (min nvols (series.length : ℤ)) series
          EF.div (EF.mul pe.2 (npMean w)) (npStd w)))) echoes with
    | .error e => .error e
    | .ok maps =>
        if maps.all (fun m => m.length == v0.length) then
          .ok (stackLast maps (EF.fin 0))
        else .error .valueError


/-! ## General lemmas -/

theorem nanToNum_isFinite (x : EF) : (nanToNum x).isFinite = true := by
  cases x <;> rfl

theorem allFinite_vol3_nanToNum (c : List EF) :
    (Image.vol3 (c.map nanToNum)).allFinite = true := by
  show (c.map nanToNum).all EF.isFinite = true
  rw [List.all_eq_true]
  intro x hx
  rcases List.mem_map.mp hx with ⟨y, _, rfl⟩
  exact nanToNum_isFinite y

theorem allFinite_vol4_nanToNum (c : List (List EF)) :
    (Image.vol4 (c.map (fun r => r.map nanToNum))).allFinite = true := by
  show (c.map (fun r => r.map nanToNum)).all (fun s => s.all EF.isFinite) = true
  rw [List.all_eq_true]
  intro s hs
  rcases List.mem_map.mp hs with ⟨r, _, rfl⟩
  rw [List.all_eq_true]
  intro x hx
  rcases List.mem_map.mp hx with ⟨y, _, rfl⟩
  exact nanToNum_isFinite y

/-! ## The claims -/

/-- **C1** (amended): whenever `me_combine` produces a combined volume,
that volume is fully finite — but not because non-finite values become
0: the final `np.nan_to_num` maps `nan` to 0 and `+inf`/`-inf` to the
largest/lowest finite float. -/
theorem multiecho_C1 (files : List (Image × EF)) (alg : String)
    (ws : Option (List EF)) (vols : ℤ) (img : Image)
    (h : meCombine files alg ws vols = .ok (.ok img)) :
    img.allFinite = true ∧ nanToNum EF.nan = EF.fin 0 ∧
      nanToNum EF.pinf = EF.fin MAXF ∧ nanToNum EF.ninf = EF.fin (-MAXF) := by
  refine ⟨?_, rfl, rfl, rfl⟩
  unfold meCombine at h
  split at h
  · cases h
  · split at h
    · cases h
    · split at h
      · cases h
      · split at h
        · cases h
        · injection h with h1; cases h1
        · split at h
          · cases h
          · rename_i a wspec1 c hn
            obtain rfl : Image.vol3 (c.map nanToNum) = img := by
              injection h with h1; injection h1
            exact allFinite_vol3_nanToNum c
        · split at h
          · cases h
          · rename_i a wspec1 c hn
            obtain rfl : Image.vol4 (c.map (fun r => r.map nanToNum)) = img := by
              injection h with h1; injection h1
            exact allFinite_vol4_nanToNum c

/-- Witness for C1 at a concrete two-echo `TE` run. -/
theorem multiecho_C1_witness :
    (Image.vol3 [EF.fin (7/2)]).allFinite = true ∧
      nanToNum EF.nan = EF.fin 0 ∧ nanToNum EF.pinf = EF.fin MAXF ∧
      nanToNum EF.ninf = EF.fin (-MAXF) :=
  multiecho_C1 [(Image.vol3 [EF.fin 2], EF.fin 1), (Image.vol3 [EF.fin 4], EF.fin 3)]
    "TE" none 100 (Image.vol3 [EF.fin (7/2)]) (by decide)

/-- **C1** counterexample: a `+inf` weighted mean is NOT replaced by 0
as the claim states; `np.nan_to_num` turns it into the largest finite
float.  The run ends with output voxel `MAXF ≠ 0`. -/
theorem multiecho_C1_counterexample :
    npAverage3 [[EF.pinf]] WeightSpec.noneW = .ok [EF.pinf] ∧
    meCombine [(Image.vol3 [EF.pinf], EF.fin 1)] "average" none 100
      = .ok (.ok (Image.vol3 [EF.fin MAXF])) ∧
    EF.fin MAXF ≠ EF.fin 0 := by
  refine ⟨rfl, rfl, ?_⟩
  intro h
  injection h with h1
  have : (0:ℚ) < MAXF := by
    have : (2:ℚ) ^ 971 < 2 ^ 1024 := by
      apply pow_lt_pow_right₀ (by norm_num) (by norm_num)
    simpa [MAXF, sub_pos] using this
  simp [h1] at this

/-- **C4** (code bug): `me_combine` with `PAID` on 3-D echoes does not
return status 1; the error log's f-string calls `echo.shape()` (a
tuple), raising an uncaught `TypeError`. -/
theorem multiecho_C4 :
    meCombine [(Image.vol3 [EF.fin 1], EF.fin 1), (Image.vol3 [EF.fin 2], EF.fin 2)]
      "PAID" none 100 = .error .typeError := by decide

/-- **C5** (code bug): an unknown algorithm name is logged but the run
proceeds, combines with the caller-supplied weights (here: none, so an
unweighted mean) and returns status 0 with a combined output. -/
theorem multiecho_C5 :
    meCombine [(Image.vol3 [EF.fin 1], EF.fin 1), (Image.vol3 [EF.fin 3], EF.fin 2)]
      "bogus" none 100 = .ok (.ok (Image.vol3 [EF.fin 2])) ∧
    MEOutcome.statusOf (.ok (Image.vol3 [EF.fin 2])) = 0 :=
  ⟨by decide, rfl⟩

/-- **C6** counterexample: a selector resolving to zero files makes
`me_combine` raise an uncaught `IndexError` (`datafiles[0]`); no
`NoDataFound` condition exists and no status code (in particular not 2)
is returned. -/
theorem multiecho_C6_counterexample :
    meCombine [] "TE" none 100 = .error .indexError := by decide

/-- **C8** (code bug): `PAID` with a recoverable single truncation
(counts `[2,1]`) never reaches the combined state: the weights are
tiled to the pre-truncation temporal extent, so `np.average` raises
`TypeError` on the shape mismatch with the truncated data. -/
theorem multiecho_C8 :
    recoverable [2, 1] = true ∧
    stackAndTruncate [(Image.vol4 [[EF.fin 1, EF.fin 2]], EF.fin 1),
                      (Image.vol4 [[EF.fin 3]], EF.fin 2)]
      = .ok (.stacked4 [[[EF.fin 1, EF.fin 3]]]) ∧
    meCombine [(Image.vol4 [[EF.fin 1, EF.fin 2]], EF.fin 1),
               (Image.vol4 [[EF.fin 3]], EF.fin 2)] "PAID" none 100
      = .error .typeError := by
  exact ⟨by decide, by decide, by decide⟩

/-- **C7** counterexample: with calibration size 2, a first echo of 1
sample and a second echo of 2 samples, `paid_weights` clamps the window
to 1 sample for BOTH echoes (the first echo's count), so the second
echo's weight is computed from `[2]` (std 0, weight `+inf`), not from
its own `min(2, 2) = 2` samples `[0, 2]` (std 1, weight 2) as the
claim's per-echo window would give. -/
theorem multiecho_C7_counterexample :
    paidWeights [(Image.vol4 [[EF.fin 5]], EF.fin 1),
                 (Image.vol4 [[EF.fin 0, EF.fin 2]], EF.fin 2)] 2
      = .ok [[EF.pinf, EF.pinf]] ∧
    paidWeightsSpec [(Image.vol4 [[EF.fin 5]], EF.fin 1),
                     (Image.vol4 [[EF.fin 0, EF.fin 2]], EF.fin 2)] 2
      = .ok [[EF.pinf, EF.fin 2]] ∧
    (EF.pinf : EF) ≠ EF.fin 2 := by
  exact ⟨by decide, by decide, by decide⟩

theorem npTake_error_eq (xs : List α) (idx : List ℕ) (e : PyErr)
    (h : npTake xs idx = .error e) : e = .indexError := by
  induction idx generalizing e with
  | nil => exact absurd h (by simp [npTake, exMap])
  | cons i idx ih =>
      rw [npTake, exMap] at h
      cases hg : xs.get? i with
      | none =>
          rw [hg] at h
          exact (Except.error.injEq _ _).mp h.symm
      | some x =>
          rw [hg] at h
          cases hrec : exMap (fun i => match xs.get? i with
              | some x => Except.ok x
              | none => Except.error PyErr.indexError) idx with
          | error e2 =>
              rw [hrec] at h
              have he : e2 = e := (Except.error.injEq _ _).mp h
              exact he ▸ ih e2 (by rw [npTake]; exact hrec)
          | ok ys => rw [hrec] at h; cases h

theorem argsortEF_length (xs : List EF) : (argsortEF xs).length = xs.length := by
  unfold argsortEF
  rw [List.length_map, (List.perm_insertionSort pairLe xs.enum).length_eq,
    List.enum_length]

/-- **C6** (amended): on a selector resolving to zero files, whatever
the other arguments, `me_combine` raises an uncaught `IndexError`
(either at `datafiles[0]` or already at the fancy-indexing in
`load_me_data`); there is no `NoDataFound` condition and no status
code 2 in the code, and no output is produced. -/
theorem multiecho_C6 (alg : String) (ws : Option (List EF)) (vols : ℤ) :
    meCombine [] alg ws vols = .error .indexError := by
  match ws with
  | none => rfl
  | some [] => rfl
  | some (t :: ts) =>
      have hne : argsortEF (t :: ts) ≠ [] := by
        intro hnil
        have hl := argsortEF_length (t :: ts)
        rw [hnil] at hl
        simp at hl
      obtain ⟨i, s2, hs⟩ := List.exists_cons_of_ne_nil hne
      unfold meCombine loadMEData
      dsimp only
      simp only [List.isEmpty_cons, Bool.false_eq_true, if_false]
      rw [hs]
      cases hnp : npTake (t :: ts) (i :: s2) with
      | error e =>
          have he := npTake_error_eq _ _ _ hnp
          rw [he]
      | ok l2 => rfl

theorem exMap_ok (f : α → Except PyErr β) (g : α → β) (xs : List α)
    (h : ∀ x ∈ xs, f x = .ok (g x)) : exMap f xs = .ok (xs.map g) := by
  induction xs with
  | nil => rfl
  | cons x xs ih =>
      rw [exMap, h x (List.mem_cons_self x xs),
        ih (fun y hy => h y (List.mem_cons_of_mem x hy))]
      rfl

theorem npDiff_length (d : List ℤ) : (npDiff d).length = d.length - 1 := by
  rw [npDiff, List.length_map, List.length_zip, List.length_tail]
  omega

theorem countP_disjoint_le (l : List ℤ) :
    l.countP (fun x => x == -1) + l.countP (fun x => x == 0) ≤ l.length := by
  induction l with
  | nil => simp
  | cons x l ih =>
      simp only [List.countP_cons, List.length_cons]
      by_cases h1 : x = -1
      · subst h1
        rw [if_pos (by simp), if_neg (by simp)]
        omega
      · by_cases h2 : x = 0
        · subst h2
          rw [if_neg (by simp), if_pos (by simp)]
          omega
        · rw [if_neg (by simp [h1]), if_neg (by simp [h2])]
          omega

theorem countPair (l : List ℤ) :
    (l.countP (fun x => x == -1) + l.countP (fun x => x == 0) = l.length)
      ↔ ∀ x ∈ l, x = -1 ∨ x = 0 := by
  induction l with
  | nil => simp
  | cons x l ih =>
      simp only [List.countP_cons, List.length_cons, List.mem_cons]
      have hdis := countP_disjoint_le l
      constructor
      · intro h y hy
        rcases hy with rfl | hy
        · by_contra hcon
          push_neg at hcon
          rw [if_neg (by simp [hcon.1]), if_neg (by simp [hcon.2])] at h
          omega
        · refine (ih.mp ?_) y hy
          by_cases h1 : x = -1
          · subst h1
            rw [if_pos (by simp), if_neg (by simp)] at h
            omega
          · by_cases h2 : x = 0
            · subst h2
              rw [if_neg (by simp), if_pos (by simp)] at h
              omega
            · rw [if_neg (by simp [h1]), if_neg (by simp [h2])] at h
              omega
      · intro h
        have hx := h x (Or.inl rfl)
        have hrest := ih.mpr (fun y hy => h y (Or.inr hy))
        rcases hx with rfl | rfl
        · rw [if_pos (by simp), if_neg (by simp)]
          omega
        · rw [if_neg (by simp), if_pos (by simp)]
          omega

/-- The code's truncation test is exactly the spec's single-truncation
pattern: exactly one adjacent difference is `-1` and all other adjacent
differences are `0`. -/
theorem recoverable_iff (d : List ℤ) :
    recoverable d = true ↔
      ((npDiff d).countP (fun x => x == -1) = 1 ∧
        ∀ x ∈ npDiff d, x = -1 ∨ x = 0) := by
  have hlen := npDiff_length d
  have hle1 := List.countP_le_length (l := npDiff d) (p := fun x => x == -1)
  have hle2 := List.countP_le_length (l := npDiff d) (p := fun x => x == 0)
  rw [recoverable, Bool.and_eq_true, beq_iff_eq, beq_iff_eq]
  constructor
  · rintro ⟨h1, h2⟩
    exact ⟨h1, (countPair _).mp (by omega)⟩
  · rintro ⟨h1, h2⟩
    have hsum := (countPair _).mpr h2
    exact ⟨h1, by omega⟩

theorem all_eq_of_dedup_le_one {l : List ℤ} (h : l.dedup.length ≤ 1) :
    ∀ x ∈ l, ∀ y ∈ l, x = y := by
  intro x hx y hy
  rw [← List.mem_dedup] at hx hy
  cases hd : l.dedup with
  | nil => rw [hd] at hx; cases hx
  | cons a rest =>
      rw [hd] at hx hy h
      simp only [List.length_cons] at h
      have hrest : rest = [] := List.length_eq_zero.mp (by omega)
      subst hrest
      have hxa := List.mem_singleton.mp hx
      have hya := List.mem_singleton.mp hy
      rw [hxa, hya]

theorem exMap_vol4 (medata : List (Image × EF))
    (h4 : ∀ pe ∈ medata, pe.1.ndim = 4) :
    exMap (fun pe => match pe.1 with
      | Image.vol4 v => Except.ok v
      | Image.vol3 _ => Except.error PyErr.indexError) medata
      = .ok (medata.map (fun pe => echoData pe.1)) := by
  apply exMap_ok
  intro pe hpe
  have hnd := h4 pe hpe
  cases himg : pe.1 with
  | vol3 v => rw [himg] at hnd; simp [Image.ndim] at hnd
  | vol4 v => rfl

theorem stackAT_4D (medata : List (Image × EF))
    (hne : medata ≠ []) (h4 : ∀ pe ∈ medata, pe.1.ndim = 4) :
    stackAndTruncate medata =
      (let vdata := medata.map (fun pe => echoData pe.1)
       let dim4 : List ℤ := vdata.map (fun v => ((v.headD []).length : ℤ))
       if dim4.dedup.length > 1 then
         if recoverable dim4 then
           let k := (dim4.foldr min (dim4.headD 0)).toNat
           let sliced := vdata.map (fun v => v.map (List.take k))
           if stackShapeOk4 sliced then .ok (.stacked4 (stack4 sliced))
           else .error .valueError
         else .ok .inconsistent
       else
         let k := (dim4.headD 0).toNat
         let sliced := vdata.map (fun v => v.map (List.take k))
         if stackShapeOk4 sliced then .ok (.stacked4 (stack4 sliced))
         else .error .valueError) := by
  obtain ⟨p, rest, rfl⟩ := List.exists_cons_of_ne_nil hne
  have hp := h4 p (List.mem_cons_self p rest)
  unfold stackAndTruncate
  dsimp only [List.head?]
  rw [if_pos (show p.1.ndim > 3 by omega)]
  rw [exMap_vol4 _ h4]

theorem stackShapeOk4_true (vdata : List (List (List EF))) (hne : vdata ≠ [])
    (hvox : ∀ v ∈ vdata, v.length = (vdata.headD []).length)
    (hlen : ∀ v ∈ vdata, ∀ s ∈ v, s.length = ((vdata.headD []).headD []).length) :
    stackShapeOk4 vdata = true := by
  obtain ⟨v0, rest, rfl⟩ := List.exists_cons_of_ne_nil hne
  rw [stackShapeOk4]
  dsimp only [List.head?]
  rw [List.all_eq_true]
  intro v hv
  rw [Bool.and_eq_true, beq_iff_eq, List.all_eq_true]
  refine ⟨hvox v hv, ?_⟩
  intro s hs
  rw [beq_iff_eq]
  exact hlen v hv s hs

theorem stackAT_equal_counts (medata : List (Image × EF))
    (hne : medata ≠ []) (h4 : ∀ pe ∈ medata, pe.1.ndim = 4)
    (hwf : ∀ pe ∈ medata, ∀ s ∈ echoData pe.1,
      s.length = ((echoData pe.1).headD []).length)
    (hvox : ∀ v ∈ medata.map (fun pe => echoData pe.1),
      v.length = ((medata.map (fun pe => echoData pe.1)).headD []).length)
    (hdedup : ((medata.map (fun pe => echoData pe.1)).map
        (fun v => ((v.headD []).length : ℤ))).dedup.length ≤ 1) :
    stackAndTruncate medata
      = .ok (.stacked4 (stack4 (medata.map (fun pe => echoData pe.1)))) := by
  rw [stackAT_4D medata hne h4]
  dsimp only
  rw [if_neg (by omega)]
  have hall := all_eq_of_dedup_le_one hdedup
  obtain ⟨p, rest, rfl⟩ := List.exists_cons_of_ne_nil hne
  have hhead : (((p :: rest).map (fun pe => echoData pe.1)).map
        (fun v => ((v.headD []).length : ℤ))).headD 0
      = (((echoData p.1).headD []).length : ℤ) := by
    simp only [List.map_cons, List.headD_cons]
  have hceq : ∀ pe ∈ p :: rest,
      ((echoData pe.1).headD []).length = ((echoData p.1).headD []).length := by
    intro pe hpe
    have hmem : (((echoData pe.1).headD []).length : ℤ) ∈
        ((p :: rest).map (fun pe => echoData pe.1)).map
          (fun v => ((v.headD []).length : ℤ)) :=
      List.mem_map_of_mem _ (List.mem_map_of_mem _ hpe)
    have hmem0 : (((echoData p.1).headD []).length : ℤ) ∈
        ((p :: rest).map (fun pe => echoData pe.1)).map
          (fun v => ((v.headD []).length : ℤ)) :=
      List.mem_map_of_mem _ (List.mem_map_of_mem _ (List.mem_cons_self p rest))
    exact_mod_cast hall _ hmem _ hmem0
  have hsl : ((p :: rest).map (fun pe => echoData pe.1)).map
        (fun v => v.map (List.take (((((p :: rest).map (fun pe => echoData pe.1)).map
          (fun v => ((v.headD []).length : ℤ))).headD 0).toNat)))
      = (p :: rest).map (fun pe => echoData pe.1) := by
    rw [hhead, Int.toNat_ofNat]
    refine (List.map_congr_left ?_).trans (List.map_id _)
    intro v hv
    obtain ⟨pe, hpe, rfl⟩ := List.mem_map.mp hv
    refine (List.map_congr_left ?_).trans (List.map_id _)
    intro s hs
    exact List.take_of_length_le (le_of_eq (by rw [hwf pe hpe s hs, hceq pe hpe]))
  rw [hsl]
  rw [if_pos (stackShapeOk4_true _ (by simp) hvox ?_)]
  intro v hv s hs
  obtain ⟨pe, hpe, rfl⟩ := List.mem_map.mp hv
  rw [hwf pe hpe s hs, hceq pe hpe]
  simp only [List.map_cons, List.headD_cons]

theorem foldr_min_le_mem (xs : List ℤ) (i : ℤ) : ∀ x ∈ xs, xs.foldr min i ≤ x := by
  induction xs with
  | nil => intro x hx; cases hx
  | cons y ys ih =>
      intro x hx
      rcases List.mem_cons.mp hx with rfl | hx
      · exact min_le_left _ _
      · exact le_trans (min_le_right _ _) (ih x hx)

theorem foldr_min_nonneg (xs : List ℤ) (i : ℤ) (hi : 0 ≤ i)
    (hx : ∀ x ∈ xs, 0 ≤ x) : 0 ≤ xs.foldr min i := by
  induction xs with
  | nil => exact hi
  | cons y ys ih =>
      exact le_min (hx y (List.mem_cons_self y ys))
        (ih (fun x h => hx x (List.mem_cons_of_mem y h)))

theorem stackAT_inconsistent (medata : List (Image × EF))
    (hne : medata ≠ []) (h4 : ∀ pe ∈ medata, pe.1.ndim = 4)
    (hdedup : ((medata.map (fun pe => echoData pe.1)).map
        (fun v => ((v.headD []).length : ℤ))).dedup.length > 1)
    (hrec : recoverable ((medata.map (fun pe => echoData pe.1)).map
        (fun v => ((v.headD []).length : ℤ))) = false) :
    stackAndTruncate medata = .ok .inconsistent := by
  rw [stackAT_4D medata hne h4]
  dsimp only
  rw [if_pos (by omega), if_neg (by rw [hrec]; exact Bool.false_ne_true)]

theorem headD_int_nonneg (l : List ℤ) (h : ∀ x ∈ l, 0 ≤ x) : 0 ≤ l.headD 0 := by
  cases l with
  | nil => exact le_refl 0
  | cons a r => exact h a (List.mem_cons_self a r)

theorem stackShapeOk4_sliced (vdata : List (List (List EF))) (k : ℕ)
    (hne : vdata ≠ [])
    (hwf : ∀ v ∈ vdata, ∀ s ∈ v, s.length = (v.headD []).length)
    (hvox : ∀ v ∈ vdata, v.length = (vdata.headD []).length)
    (hk : ∀ v ∈ vdata, k ≤ (v.headD []).length) :
    stackShapeOk4 (vdata.map (fun v => v.map (List.take k))) = true := by
  obtain ⟨v0, rest, rfl⟩ := List.exists_cons_of_ne_nil hne
  apply stackShapeOk4_true
  · simp
  · intro v hv
    obtain ⟨v1, hv1, rfl⟩ := List.mem_map.mp hv
    simp only [List.map_cons, List.headD_cons, List.length_map]
    simpa only [List.headD_cons] using hvox v1 hv1
  · intro v hv s hs
    obtain ⟨v1, hv1, rfl⟩ := List.mem_map.mp hv
    obtain ⟨s1, hs1, rfl⟩ := List.mem_map.mp hs
    simp only [List.map_cons, List.headD_cons, List.length_take]
    have hs1len : k ≤ s1.length := by
      rw [hwf v1 hv1 s1 hs1]
      exact hk v1 hv1
    cases hv0 : v0 with
    | nil =>
        exfalso
        have hlen := hvox v1 hv1
        simp only [List.headD_cons, hv0] at hlen
        simp at hlen
        rw [hlen] at hs1
        cases hs1
    | cons s0 rest0 =>
        simp only [List.map_cons, List.headD_cons, List.length_take]
        have hs0len : k ≤ s0.length := by
          have h1 := hk v0 (List.mem_cons_self v0 rest)
          rw [hv0] at h1
          simpa only [List.headD_cons] using h1
        omega

theorem stackAT_trunc (medata : List (Image × EF))
    (vdata : List (List (List EF))) (dim4 : List ℤ) (k : ℕ)
    (hv : vdata = medata.map (fun pe => echoData pe.1))
    (hd : dim4 = vdata.map (fun v => ((v.headD []).length : ℤ)))
    (hk : k = (dim4.foldr min (dim4.headD 0)).toNat)
    (hne : medata ≠ []) (h4 : ∀ pe ∈ medata, pe.1.ndim = 4)
    (hwf : ∀ pe ∈ medata, ∀ s ∈ echoData pe.1,
      s.length = ((echoData pe.1).headD []).length)
    (hvox : ∀ v ∈ vdata, v.length = (vdata.headD []).length)
    (hdedup : dim4.dedup.length > 1) (hrec : recoverable dim4 = true) :
    stackAndTruncate medata
      = .ok (.stacked4 (stack4 (vdata.map (fun v => v.map (List.take k))))) := by
  have hvne : vdata ≠ [] := by
    rw [hv]
    intro hc
    exact hne (List.map_eq_nil_iff.mp hc)
  have hnn : ∀ x ∈ dim4, 0 ≤ x := by
    intro x hx
    rw [hd] at hx
    obtain ⟨v, _, rfl⟩ := List.mem_map.mp hx
    exact Int.natCast_nonneg _
  have h0 : 0 ≤ dim4.foldr min (dim4.headD 0) :=
    foldr_min_nonneg _ _ (headD_int_nonneg _ hnn) hnn
  have hkmem : ∀ v ∈ vdata, k ≤ (v.headD []).length := by
    intro v hvm
    have hmem : ((v.headD []).length : ℤ) ∈ dim4 := by
      rw [hd]
      exact List.mem_map_of_mem _ hvm
    have := foldr_min_le_mem dim4 (dim4.headD 0) _ hmem
    omega
  have hshape : stackShapeOk4 (vdata.map (fun v => v.map (List.take k))) = true := by
    apply stackShapeOk4_sliced vdata k hvne ?_ hvox hkmem
    intro v hvm s hs
    rw [hv] at hvm
    obtain ⟨pe, hpe, rfl⟩ := List.mem_map.mp hvm
    exact hwf pe hpe s hs
  subst hk hd hv
  rw [stackAT_4D medata hne h4]
  dsimp only
  rw [if_pos (by omega), if_pos hrec, if_pos hshape]

/-- **C2** (confirmed): for 4-D echo sets in echo-time order, the code
proceeds iff the differing sample counts show exactly one adjacent
difference of `-1` with all others `0` (first conjunct: the code's test
is equivalent to that pattern); with equal counts nothing is truncated;
with a recoverable pattern every echo is truncated to the minimum
count; with any other differing pattern the combination is skipped with
status 1.  The last three conjuncts run `me_combine` end-to-end on the
spec's `[100,100,99]`, `[100,99,100]` and `[100,100,100]` instances. -/
theorem multiecho_C2 (medata : List (Image × EF))
    (hne : medata ≠ []) (h4 : ∀ pe ∈ medata, pe.1.ndim = 4)
    (hwf : ∀ pe ∈ medata, ∀ s ∈ echoData pe.1,
      s.length = ((echoData pe.1).headD []).length)
    (hvox : ∀ v ∈ medata.map (fun pe => echoData pe.1),
      v.length = ((medata.map (fun pe => echoData pe.1)).headD []).length) :
    (∀ counts : List ℤ, recoverable counts = true ↔
      ((npDiff counts).countP (fun x => x == -1) = 1 ∧
        ∀ x ∈ npDiff counts, x = -1 ∨ x = 0)) ∧
    (((medata.map (fun pe => echoData pe.1)).map (fun v => ((v.headD []).length : ℤ))).dedup.length ≤ 1 →
      stackAndTruncate medata = .ok (.stacked4 (stack4 (medata.map (fun pe => echoData pe.1))))) ∧
    (((medata.map (fun pe => echoData pe.1)).map (fun v => ((v.headD []).length : ℤ))).dedup.length > 1 → recoverable ((medata.map (fun pe => echoData pe.1)).map (fun v => ((v.headD []).length : ℤ))) = true →
      stackAndTruncate medata = .ok (.stacked4 (stack4 ((medata.map (fun pe => echoData pe.1)).map (fun v => v.map (List.take ((((medata.map (fun pe => echoData pe.1)).map (fun v => ((v.headD []).length : ℤ))).foldr min (((medata.map (fun pe => echoData pe.1)).map (fun v => ((v.headD []).length : ℤ))).headD 0)).toNat))))))) ∧
    (((medata.map (fun pe => echoData pe.1)).map (fun v => ((v.headD []).length : ℤ))).dedup.length > 1 → recoverable ((medata.map (fun pe => echoData pe.1)).map (fun v => ((v.headD []).length : ℤ))) = false →
      stackAndTruncate medata = .ok .inconsistent
        ∧ MEOutcome.statusOf .inconsistent = 1) ∧
    (meCombine [(Image.vol4 [List.replicate 100 (EF.fin 1)], EF.fin 1),
                (Image.vol4 [List.replicate 100 (EF.fin 1)], EF.fin 2),
                (Image.vol4 [List.replicate 99 (EF.fin 1)], EF.fin 3)] "TE" none 100
        = .ok (.ok (Image.vol4 [List.replicate 99 (EF.fin 1)]))) ∧
    (meCombine [(Image.vol4 [List.replicate 100 (EF.fin 1)], EF.fin 1),
                (Image.vol4 [List.replicate 99 (EF.fin 1)], EF.fin 2),
                (Image.vol4 [List.replicate 100 (EF.fin 1)], EF.fin 3)] "TE" none 100
        = .ok .inconsistent) ∧
    (meCombine [(Image.vol4 [List.replicate 100 (EF.fin 1)], EF.fin 1),
                (Image.vol4 [List.replicate 100 (EF.fin 1)], EF.fin 2),
                (Image.vol4 [List.replicate 100 (EF.fin 1)], EF.fin 3)] "TE" none 100
        = .ok (.ok (Image.vol4 [List.replicate 100 (EF.fin 1)]))) := by
  refine ⟨fun counts => recoverable_iff counts, ?_, ?_, ?_, by decide, by decide, by decide⟩
  · intro hd
    exact stackAT_equal_counts medata hne h4 hwf hvox hd
  · intro hd hr
    exact stackAT_trunc medata _ _ _ rfl rfl rfl hne h4 hwf hvox hd hr
  · intro hd hr
    exact ⟨stackAT_inconsistent medata hne h4 hd hr, rfl⟩

/-- Witness for C2: a two-echo set with counts `[2,1]` (recoverable
single truncation) is truncated to one sample per echo and stacked. -/
theorem multiecho_C2_witness :
    stackAndTruncate [(Image.vol4 [[EF.fin 1, EF.fin 2]], EF.fin 1),
                      (Image.vol4 [[EF.fin 3]], EF.fin 2)]
      = .ok (.stacked4 [[[EF.fin 1, EF.fin 3]]]) :=
  (multiecho_C2 [(Image.vol4 [[EF.fin 1, EF.fin 2]], EF.fin 1),
                 (Image.vol4 [[EF.fin 3]], EF.fin 2)]
    (by decide) (by decide) (by decide) (by decide)).2.2.1 (by decide) (by decide)

theorem getD_map (l : List α) (f : α → β) (i : ℕ) (d : β) (d0 : α)
    (h : i < l.length) : (l.map f).getD i d = f (l.getD i d0) := by
  rw [List.getD_eq_getElem?_getD, List.getElem?_map,
    List.getElem?_eq_getElem h, List.getD_eq_getElem?_getD,
    List.getElem?_eq_getElem h]
  rfl

theorem getD_range_map (n : ℕ) (f : ℕ → α) (i : ℕ) (d : α) (h : i < n) :
    (((List.range n).map f).getD i d) = f i := by
  rw [getD_map _ _ _ _ 0 (by rw [List.length_range]; exact h),
    List.getD_eq_getElem?_getD, List.getElem?_range h]
  rfl

theorem toNat_min (a b : ℤ) : (min a b).toNat = min a.toNat b.toNat := by
  rcases le_total a b with h | h
  · rw [min_eq_left h]
    omega
  · rw [min_eq_right h]
    omega

theorem pySliceLast_eq_lastN (n : ℤ) (xs : List α) (hn : 1 ≤ n) :
    pySliceLast n xs = lastN (min n.toNat xs.length) xs := by
  unfold pySliceLast lastN
  rw [if_pos (by omega)]
  congr 1
  rcases le_total ((xs.length : ℤ) + -n) 0 with h | h
  · rw [max_eq_right h]
    omega
  · rw [max_eq_left h]
    omega

theorem echoData_vol4 (v : List (List EF)) : echoData (Image.vol4 v) = v := rfl

theorem getD_mem (l : List α) (n : ℕ) (d : α) (h : n < l.length) :
    l.getD n d ∈ l := by
  rw [List.getD_eq_getElem?_getD, List.getElem?_eq_getElem h]
  exact List.getElem_mem h

theorem stackLast_length (arrs : List (List α)) (d : α) :
    (stackLast arrs d).length = (arrs.headD []).length := by
  cases arrs with
  | nil => rfl
  | cons a r =>
      rw [stackLast]
      dsimp only [List.head?, List.headD_cons]
      rw [List.length_map, List.length_range]

theorem stackLast_getD (arrs : List (List α)) (dflt : α) (i : ℕ)
    (h : i < (arrs.headD []).length) :
    (stackLast arrs dflt).getD i [] = arrs.map (fun v => v.getD i dflt) := by
  cases arrs with
  | nil => exact absurd h (by simp)
  | cons a r =>
      rw [stackLast]
      dsimp only [List.head?]
      exact getD_range_map _ _ _ _ (by simpa using h)

/-- **C7** (amended): for every 4-D echo set, the PAID weight of each
echo is computed from the last
`min (min nCalibrationVolumes firstEcho.sampleCount) echo.sampleCount`
temporal samples of that echo — the calibration size is clamped by the
FIRST echo's sample count before each echo's own tail window is taken —
as echo time times the per-voxel mean divided by the per-voxel standard
deviation over that window. -/
theorem multiecho_C7 (echoes : List (Image × EF)) (nvols : ℤ)
    (hne : echoes ≠ [])
    (h4 : ∀ pe ∈ echoes, pe.1.ndim = 4)
    (hlen : ∀ pe ∈ echoes, (echoData pe.1).length = (echoData (echoes.headD (Image.vol3 [], EF.fin 0)).1).length)
    (hn : 1 ≤ nvols)
    (hc0 : 1 ≤ ((echoData (echoes.headD (Image.vol3 [], EF.fin 0)).1).headD []).length) :
    ∃ W, paidWeights echoes nvols = .ok W ∧
      W.length = (echoData (echoes.headD (Image.vol3 [], EF.fin 0)).1).length ∧
      ∀ i e, i < (echoData (echoes.headD (Image.vol3 [], EF.fin 0)).1).length → e < echoes.length →
        (W.getD i []).getD e (EF.fin 0)
          = EF.div (EF.mul ((echoes.getD e (Image.vol3 [], EF.fin 0)).2) (npMean (lastN (min (min nvols.toNat ((echoData (echoes.headD (Image.vol3 [], EF.fin 0)).1).headD []).length) (List.length ((echoData (echoes.getD e (Image.vol3 [], EF.fin 0)).1).getD i []))) ((echoData (echoes.getD e (Image.vol3 [], EF.fin 0)).1).getD i [])))) (npStd (lastN (min (min nvols.toNat ((echoData (echoes.headD (Image.vol3 [], EF.fin 0)).1).headD []).length) (List.length ((echoData (echoes.getD e (Image.vol3 [], EF.fin 0)).1).getD i []))) ((echoData (echoes.getD e (Image.vol3 [], EF.fin 0)).1).getD i []))) := by
  obtain ⟨p, rest, rfl⟩ := List.exists_cons_of_ne_nil hne
  obtain ⟨img, te⟩ := p
  have h40 := h4 (img, te) (List.mem_cons_self _ _)
  cases himg : img with
  | vol3 v => rw [himg] at h40; simp [Image.ndim] at h40
  | vol4 v0 =>
  subst himg
  simp only [List.headD_cons, echoData_vol4] at hlen hc0 ⊢
  have hex := exMap_ok
    (fun pe => match pe.1 with
      | Image.vol3 _ => Except.error PyErr.valueError
      | Image.vol4 v => Except.ok (v.map (fun series =>
          let w := pySliceLast (min nvols ((v0.headD []).length : ℤ)) series
          EF.div (EF.mul pe.2 (npMean w)) (npStd w))))
    (fun pe => (echoData pe.1).map (fun series =>
        let w := pySliceLast (min nvols ((v0.headD []).length : ℤ)) series
        EF.div (EF.mul pe.2 (npMean w)) (npStd w)))
    ((Image.vol4 v0, te) :: rest)
    (by
      intro pe hpe
      have hnd := h4 pe hpe
      dsimp only
      cases himg2 : pe.1 with
      | vol3 v => rw [himg2] at hnd; simp [Image.ndim] at hnd
      | vol4 v => rfl)
  unfold paidWeights
  dsimp only [List.head?]
  rw [hex]
  dsimp only
  have hallb : ((((Image.vol4 v0, te) :: rest)).map
      (fun pe => (echoData pe.1).map (fun series =>
        let w := pySliceLast (min nvols ((v0.headD []).length : ℤ)) series
        EF.div (EF.mul pe.2 (npMean w)) (npStd w)))).all
      (fun m => m.length == v0.length) = true := by
    rw [List.all_eq_true]
    intro m hm
    obtain ⟨pe, hpe, rfl⟩ := List.mem_map.mp hm
    rw [beq_iff_eq, List.length_map]
    exact hlen pe hpe
  rw [if_pos hallb]
  refine ⟨_, rfl, ?_, ?_⟩
  · rw [stackLast_length]
    simp only [List.map_cons, List.headD_cons, echoData_vol4, List.length_map]
  · intro i e hi he
    rw [stackLast_getD _ _ _ (by
      simp only [List.map_cons, List.headD_cons, echoData_vol4, List.length_map]
      exact hi)]
    have he2 : e < (((Image.vol4 v0, te) :: rest).map
        (fun pe => (echoData pe.1).map (fun series =>
          let w := pySliceLast (min nvols ((v0.headD []).length : ℤ)) series
          EF.div (EF.mul pe.2 (npMean w)) (npStd w)))).length := by
      rw [List.length_map]
      exact he
    rw [getD_map _ _ _ _ [] he2]
    rw [getD_map _ _ _ _ (Image.vol3 [], EF.fin 0) he]
    have hie : i < (echoData ((((Image.vol4 v0, te) :: rest).getD e
        (Image.vol3 [], EF.fin 0))).1).length := by
      rw [hlen _ (getD_mem _ _ _ he)]
      exact hi
    rw [getD_map _ _ _ _ [] hie]
    have hn2 : 1 ≤ min nvols ((v0.headD []).length : ℤ) := by
      refine le_min hn ?_
      exact_mod_cast hc0
    dsimp only
    rw [pySliceLast_eq_lastN _ _ hn2, toNat_min, Int.toNat_ofNat]

/-- Witness for C7 at a one-echo set with two samples and
calibration size 2. -/
theorem multiecho_C7_witness :
    ∃ W, paidWeights ([(Image.vol4 [[EF.fin 0, EF.fin 2]], EF.fin 1)] : List (Image × EF)) 2 = .ok W ∧
      W.length = (echoData (([(Image.vol4 [[EF.fin 0, EF.fin 2]], EF.fin 1)] : List (Image × EF)).headD (Image.vol3 [], EF.fin 0)).1).length ∧
      ∀ i e, i < (echoData (([(Image.vol4 [[EF.fin 0, EF.fin 2]], EF.fin 1)] : List (Image × EF)).headD (Image.vol3 [], EF.fin 0)).1).length → e < ([(Image.vol4 [[EF.fin 0, EF.fin 2]], EF.fin 1)] : List (Image × EF)).length →
        (W.getD i []).getD e (EF.fin 0)
          = EF.div (EF.mul ((([(Image.vol4 [[EF.fin 0, EF.fin 2]], EF.fin 1)] : List (Image × EF)).getD e (Image.vol3 [], EF.fin 0)).2) (npMean (lastN (min (min (2:ℤ).toNat ((echoData (([(Image.vol4 [[EF.fin 0, EF.fin 2]], EF.fin 1)] : List (Image × EF)).headD (Image.vol3 [], EF.fin 0)).1).headD []).length) (List.length ((echoData (([(Image.vol4 [[EF.fin 0, EF.fin 2]], EF.fin 1)] : List (Image × EF)).getD e (Image.vol3 [], EF.fin 0)).1).getD i []))) ((echoData (([(Image.vol4 [[EF.fin 0, EF.fin 2]], EF.fin 1)] : List (Image × EF)).getD e (Image.vol3 [], EF.fin 0)).1).getD i [])))) (npStd (lastN (min (min (2:ℤ).toNat ((echoData (([(Image.vol4 [[EF.fin 0, EF.fin 2]], EF.fin 1)] : List (Image × EF)).headD (Image.vol3 [], EF.fin 0)).1).headD []).length) (List.length ((echoData (([(Image.vol4 [[EF.fin 0, EF.fin 2]], EF.fin 1)] : List (Image × EF)).getD e (Image.vol3 [], EF.fin 0)).1).getD i []))) ((echoData (([(Image.vol4 [[EF.fin 0, EF.fin 2]], EF.fin 1)] : List (Image × EF)).getD e (Image.vol3 [], EF.fin 0)).1).getD i []))) :=
  multiecho_C7 ([(Image.vol4 [[EF.fin 0, EF.fin 2]], EF.fin 1)] : List (Image × EF)) 2 (by decide) (by decide) (by decide) (by decide) (by decide)

theorem npSum_cons (x : EF) (l : List EF) : npSum (x :: l) = EF.add x (npSum l) := rfl

theorem mul_fin_scale (x : EF) (c q : ℚ) (hc : 0 < c) :
    EF.mul x (EF.fin (c * q)) = EF.mul (EF.fin c) (EF.mul x (EF.fin q)) := by
  cases x with
  | nan => rfl
  | fin a =>
      simp only [EF.mul]
      congr 1
      ring
  | pinf =>
      simp only [EF.mul]
      rcases lt_trichotomy 0 q with h | h | h
      · rw [if_pos h, if_pos (mul_pos hc h)]
        simp only [EF.mul]
        rw [if_pos hc]
      · rw [← h, mul_zero]
        rw [if_neg (lt_irrefl 0), if_neg (lt_irrefl 0)]
      · have h2 : c * q < 0 := mul_neg_of_pos_of_neg hc h
        rw [if_neg (not_lt.mpr (le_of_lt h2)), if_pos h2,
          if_neg (not_lt.mpr (le_of_lt h)), if_pos h]
        simp only [EF.mul]
        rw [if_pos hc]
  | ninf =>
      simp only [EF.mul]
      rcases lt_trichotomy 0 q with h | h | h
      · rw [if_pos h, if_pos (mul_pos hc h)]
        simp only [EF.mul]
        rw [if_pos hc]
      · rw [← h, mul_zero]
        rw [if_neg (lt_irrefl 0), if_neg (lt_irrefl 0)]
      · have h2 : c * q < 0 := mul_neg_of_pos_of_neg hc h
        rw [if_neg (not_lt.mpr (le_of_lt h2)), if_pos h2,
          if_neg (not_lt.mpr (le_of_lt h)), if_pos h]
        simp only [EF.mul]
        rw [if_pos hc]

theorem mul_fin_add (x y : EF) (c : ℚ) (hc : 0 < c) :
    EF.mul (EF.fin c) (EF.add x y)
      = EF.add (EF.mul (EF.fin c) x) (EF.mul (EF.fin c) y) := by
  cases x <;> cases y <;>
    simp only [EF.mul, EF.add, if_pos hc, mul_add]

theorem npSum_fin_toQ (ws : List EF) (hfin : ws.all EF.isFinite = true) :
    npSum ws = EF.fin ((ws.map EF.toQ).sum) := by
  induction ws with
  | nil => rfl
  | cons w l ih =>
      rw [List.all_cons, Bool.and_eq_true] at hfin
      cases w with
      | fin q =>
          rw [npSum_cons, ih hfin.2]
          simp only [List.map_cons, List.sum_cons, EF.add, EF.toQ]
      | pinf => exact absurd hfin.1 (by simp [EF.isFinite])
      | ninf => exact absurd hfin.1 (by simp [EF.isFinite])
      | nan => exact absurd hfin.1 (by simp [EF.isFinite])

theorem npSum_scale_fin (ws : List EF) (c : ℚ) (hfin : ws.all EF.isFinite = true) :
    npSum (ws.map (fun w => EF.mul (EF.fin c) w))
      = EF.fin (c * (ws.map EF.toQ).sum) := by
  induction ws with
  | nil => simp [npSum]
  | cons w l ih =>
      rw [List.all_cons, Bool.and_eq_true] at hfin
      cases w with
      | fin q =>
          rw [List.map_cons, npSum_cons, ih hfin.2]
          simp only [List.map_cons, List.sum_cons, EF.mul, EF.add, EF.toQ]
          congr 1
          ring
      | pinf => exact absurd hfin.1 (by simp [EF.isFinite])
      | ninf => exact absurd hfin.1 (by simp [EF.isFinite])
      | nan => exact absurd hfin.1 (by simp [EF.isFinite])

theorem zip_scale (ds : List EF) (ws : List EF) (c : ℚ) (hc : 0 < c)
    (hfin : ws.all EF.isFinite = true) :
    npSum (List.zipWith EF.mul ds (ws.map (fun w => EF.mul (EF.fin c) w)))
      = EF.mul (EF.fin c) (npSum (List.zipWith EF.mul ds ws)) := by
  induction ds generalizing ws with
  | nil =>
      simp only [List.zipWith_nil_left]
      simp [npSum, EF.mul]
  | cons d ds ih =>
      cases ws with
      | nil =>
          simp only [List.map_nil, List.zipWith_nil_right]
          simp [npSum, EF.mul]
      | cons w l =>
          rw [List.all_cons, Bool.and_eq_true] at hfin
          obtain ⟨q, rfl⟩ : ∃ q, w = EF.fin q := by
            cases w with
            | fin q => exact ⟨q, rfl⟩
            | pinf => exact absurd hfin.1 (by simp [EF.isFinite])
            | ninf => exact absurd hfin.1 (by simp [EF.isFinite])
            | nan => exact absurd hfin.1 (by simp [EF.isFinite])
          rw [List.map_cons, List.zipWith_cons_cons, List.zipWith_cons_cons,
            npSum_cons, npSum_cons, ih l hfin.2]
          rw [show EF.mul (EF.fin c) (EF.fin q) = EF.fin (c * q) from rfl]
          rw [mul_fin_scale d c q hc]
          exact (mul_fin_add _ _ c hc).symm

theorem div_scale (A : EF) (c s : ℚ) (hc : 0 < c) (hs : s ≠ 0) :
    EF.div (EF.mul (EF.fin c) A) (EF.fin (c * s)) = EF.div A (EF.fin s) := by
  have hcs : c * s ≠ 0 := mul_ne_zero (ne_of_gt hc) hs
  cases A with
  | nan => simp only [EF.mul, EF.div]
  | fin a =>
      simp only [EF.mul, EF.div]
      rw [if_neg hcs, if_neg hs]
      congr 1
      rw [mul_div_mul_left a s (ne_of_gt hc)]
  | pinf =>
      simp only [EF.mul]
      rw [if_pos hc]
      simp only [EF.div]
      rcases le_or_lt 0 s with h | h
      · rw [if_pos (mul_nonneg (le_of_lt hc) h), if_pos h]
      · rw [if_neg (not_le.mpr (mul_neg_of_pos_of_neg hc h)), if_neg (not_le.mpr h)]
  | ninf =>
      simp only [EF.mul]
      rw [if_pos hc]
      simp only [EF.div]
      rcases le_or_lt 0 s with h | h
      · rw [if_pos (mul_nonneg (le_of_lt hc) h), if_pos h]
      · rw [if_neg (not_le.mpr (mul_neg_of_pos_of_neg hc h)), if_neg (not_le.mpr h)]

theorem avgVec_scale (ws : List EF) (c : ℚ) (hc : 0 < c)
    (hfin : ws.all EF.isFinite = true) (hs : (ws.map EF.toQ).sum ≠ 0)
    (ds : List EF) :
    avgVec ds (ws.map (fun w => EF.mul (EF.fin c) w)) = avgVec ds ws := by
  unfold avgVec
  rw [zip_scale ds ws c hc hfin, npSum_scale_fin ws c hfin, npSum_fin_toQ ws hfin]
  exact div_scale _ c _ hc hs

/-- **C9** (confirmed): `np.average` renormalizes the supplied scalar
weights, so scaling every weight by one positive constant yields the
same combined volume — on 4-D stacks and on 3-D stacks alike, for any
echo data.  (`me_combine` then just maps `nan_to_num` over this common
result.) -/
theorem multiecho_C9 (a4 : List (List (List EF))) (a3 : List (List EF))
    (ws : List EF) (c : ℚ)
    (hfin : ws.all EF.isFinite = true) (hc : 0 < c)
    (hsum : (ws.map EF.toQ).sum ≠ 0) :
    npAverage4 a4 (.scalars (ws.map (fun w => EF.mul (EF.fin c) w)))
        = npAverage4 a4 (.scalars ws) ∧
    npAverage3 a3 (.scalars (ws.map (fun w => EF.mul (EF.fin c) w)))
        = npAverage3 a3 (.scalars ws) := by
  have hz1 : (npSum (ws.map (fun w => EF.mul (EF.fin c) w)) == EF.fin 0) = false := by
    rw [npSum_scale_fin ws c hfin, beq_eq_false_iff_ne]
    intro hcon
    injection hcon with h1
    exact hsum ((mul_eq_zero.mp h1).resolve_left (ne_of_gt hc))
  have hz2 : (npSum ws == EF.fin 0) = false := by
    rw [npSum_fin_toQ ws hfin, beq_eq_false_iff_ne]
    intro hcon
    injection hcon with h1
    exact hsum h1
  constructor
  · unfold npAverage4
    dsimp only
    rw [List.length_map]
    by_cases hl : (ws.length == ((a4.headD []).headD []).length) = true
    · rw [if_pos hl, if_pos hl, hz1, hz2]
      rw [if_neg (by simp), if_neg (by simp)]
      simp only [avgVec_scale ws c hc hfin hsum]
    · rw [if_neg hl, if_neg hl]
  · unfold npAverage3
    dsimp only
    rw [List.length_map]
    by_cases hl : (ws.length == (a3.headD []).length) = true
    · rw [if_pos hl, if_pos hl, hz1, hz2]
      rw [if_neg (by simp), if_neg (by simp)]
      simp only [avgVec_scale ws c hc hfin hsum]
    · rw [if_neg hl, if_neg hl]

/-- Witness for C9: scaling the weights `[1, 2]` by 2 leaves both
combination results unchanged. -/
theorem multiecho_C9_witness :
    npAverage4 [[[EF.fin 1, EF.fin 3]]]
        (.scalars ([EF.fin 1, EF.fin 2].map (fun w => EF.mul (EF.fin 2) w)))
      = npAverage4 [[[EF.fin 1, EF.fin 3]]] (.scalars [EF.fin 1, EF.fin 2]) ∧
    npAverage3 [[EF.fin 1, EF.fin 3]]
        (.scalars ([EF.fin 1, EF.fin 2].map (fun w => EF.mul (EF.fin 2) w)))
      = npAverage3 [[EF.fin 1, EF.fin 3]] (.scalars [EF.fin 1, EF.fin 2]) :=
  multiecho_C9 [[[EF.fin 1, EF.fin 3]]] [[EF.fin 1, EF.fin 3]]
    [EF.fin 1, EF.fin 2] 2 (by decide) (by decide) (by decide)

theorem headD_eq_getD (l : List α) (d : α) : l.headD d = l.getD 0 d := by
  cases l <;> rfl

theorem stack4_length (vdata : List (List (List EF))) :
    (stack4 vdata).length = (vdata.headD []).length := by
  cases vdata with
  | nil => rfl
  | cons v0 r =>
      rw [stack4]
      dsimp only [List.head?, List.headD_cons]
      rw [List.length_map, List.length_range]

theorem stack4_row (vdata : List (List (List EF))) (i : ℕ)
    (hi : i < (vdata.headD []).length) :
    (stack4 vdata).getD i []
      = (List.range ((vdata.headD []).headD []).length).map
          (fun t => vdata.map (fun v => (v.getD i []).getD t (EF.fin 0))) := by
  cases vdata with
  | nil => exact absurd hi (by simp)
  | cons v0 r =>
      rw [stack4]
      dsimp only [List.head?, List.headD_cons]
      exact getD_range_map _ _ _ _ (by simpa using hi)

theorem stack4_getD (vdata : List (List (List EF))) (i t : ℕ)
    (hi : i < (vdata.headD []).length)
    (ht : t < ((vdata.headD []).headD []).length) :
    ((stack4 vdata).getD i []).getD t []
      = vdata.map (fun v => (v.getD i []).getD t (EF.fin 0)) := by
  rw [stack4_row vdata i hi]
  exact getD_range_map _ _ _ _ ht

theorem stack4_head00 (vdata : List (List (List EF)))
    (hi : 1 ≤ (vdata.headD []).length)
    (ht : 1 ≤ ((vdata.headD []).headD []).length) :
    ((stack4 vdata).headD []).headD []
      = vdata.map (fun v => (v.getD 0 []).getD 0 (EF.fin 0)) := by
  rw [headD_eq_getD, headD_eq_getD]
  exact stack4_getD vdata 0 0 hi ht

theorem counts_equal (medata : List (Image × EF)) (hne : medata ≠ [])
    (hdedup : ((medata.map (fun pe => echoData pe.1)).map
      (fun v => ((v.headD []).length : ℤ))).dedup.length ≤ 1) :
    ∀ pe ∈ medata, ((echoData pe.1).headD []).length
      = ((echoData (medata.headD (Image.vol3 [], EF.fin 0)).1).headD []).length := by
  obtain ⟨p, rest, rfl⟩ := List.exists_cons_of_ne_nil hne
  intro pe hpe
  have h1 : (((echoData pe.1).headD []).length : ℤ) ∈
      ((p :: rest).map (fun pe => echoData pe.1)).map
        (fun v => ((v.headD []).length : ℤ)) :=
    List.mem_map_of_mem _ (List.mem_map_of_mem _ hpe)
  have h2 : (((echoData p.1).headD []).length : ℤ) ∈
      ((p :: rest).map (fun pe => echoData pe.1)).map
        (fun v => ((v.headD []).length : ℤ)) :=
    List.mem_map_of_mem _ (List.mem_map_of_mem _ (List.mem_cons_self p rest))
  have := all_eq_of_dedup_le_one hdedup _ h1 _ h2
  simp only [List.headD_cons]
  exact_mod_cast this

theorem zip_fin (ds : List EF) (ws : List EF)
    (hds : ds.all EF.isFinite = true) (hws : ws.all EF.isFinite = true) :
    npSum (List.zipWith EF.mul ds ws)
      = EF.fin ((List.zipWith (fun d w => EF.toQ d * EF.toQ w) ds ws).sum) := by
  induction ds generalizing ws with
  | nil => simp [npSum]
  | cons d l ih =>
      cases ws with
      | nil => simp [npSum]
      | cons w l2 =>
          rw [List.all_cons, Bool.and_eq_true] at hds hws
          obtain ⟨qd, rfl⟩ : ∃ q, d = EF.fin q := by
            cases d with
            | fin q => exact ⟨q, rfl⟩
            | pinf => exact absurd hds.1 (by simp [EF.isFinite])
            | ninf => exact absurd hds.1 (by simp [EF.isFinite])
            | nan => exact absurd hds.1 (by simp [EF.isFinite])
          obtain ⟨qw, rfl⟩ : ∃ q, w = EF.fin q := by
            cases w with
            | fin q => exact ⟨q, rfl⟩
            | pinf => exact absurd hws.1 (by simp [EF.isFinite])
            | ninf => exact absurd hws.1 (by simp [EF.isFinite])
            | nan => exact absurd hws.1 (by simp [EF.isFinite])
          rw [List.zipWith_cons_cons, List.zipWith_cons_cons, npSum_cons,
            ih l2 hds.2 hws.2]
          simp only [EF.mul, EF.add, EF.toQ, List.sum_cons]

theorem avgVec_fin (ds ws : List EF)
    (hds : ds.all EF.isFinite = true) (hws : ws.all EF.isFinite = true)
    (hs : (ws.map EF.toQ).sum ≠ 0) :
    avgVec ds ws
      = EF.fin ((List.zipWith (fun d w => EF.toQ d * EF.toQ w) ds ws).sum
          / (ws.map EF.toQ).sum) := by
  unfold avgVec
  rw [zip_fin ds ws hds hws, npSum_fin_toQ ws hws]
  simp only [EF.div]
  rw [if_neg hs]

theorem npMean_fin (ds : List EF) (hds : ds.all EF.isFinite = true)
    (hlen : ds.length ≠ 0) :
    npMean ds = EF.fin ((ds.map EF.toQ).sum / (ds.length : ℚ)) := by
  unfold npMean
  rw [npSum_fin_toQ ds hds]
  simp only [EF.div]
  rw [if_neg (by exact_mod_cast hlen)]

theorem getD2_map_map (l : List (List α)) (f : α → β) (i t : ℕ)
    (da : α) (db : β) (hi : i < l.length) (ht : t < (l.getD i []).length) :
    ((l.map (fun r => r.map f)).getD i []).getD t db
      = f ((l.getD i []).getD t da) := by
  rw [getD_map l (fun r => r.map f) i [] [] hi]
  exact getD_map _ f t db da ht

theorem exMap_vol3 (medata : List (Image × EF))
    (h3 : ∀ pe ∈ medata, pe.1.ndim = 3) :
    exMap (fun pe => match pe.1 with
      | Image.vol3 v => Except.ok v
      | Image.vol4 _ => Except.error PyErr.valueError) medata
      = .ok (medata.map (fun pe => echoData3 pe.1)) := by
  apply exMap_ok
  intro pe hpe
  have hnd := h3 pe hpe
  cases himg : pe.1 with
  | vol4 v => rw [himg] at hnd; simp [Image.ndim] at hnd
  | vol3 v => rfl

theorem stackAT_3D (medata : List (Image × EF)) (hne : medata ≠ [])
    (h3 : ∀ pe ∈ medata, pe.1.ndim = 3)
    (hvox3 : ∀ pe ∈ medata, (echoData3 pe.1).length
      = (echoData3 (medata.headD (Image.vol3 [], EF.fin 0)).1).length) :
    stackAndTruncate medata
      = .ok (.stacked3 (stackLast (medata.map (fun pe => echoData3 pe.1)) (EF.fin 0))) := by
  obtain ⟨p, rest, rfl⟩ := List.exists_cons_of_ne_nil hne
  have hp := h3 p (List.mem_cons_self p rest)
  unfold stackAndTruncate
  dsimp only [List.head?]
  rw [if_neg (show ¬ p.1.ndim > 3 by omega)]
  rw [exMap_vol3 _ h3]
  dsimp only
  have hall : ((p :: rest).map (fun pe => echoData3 pe.1)).all
      (fun v => v.length == (((p :: rest).map (fun pe => echoData3 pe.1)).headD []).length) = true := by
    rw [List.all_eq_true]
    intro v hv
    obtain ⟨pe, hpe, rfl⟩ := List.mem_map.mp hv
    rw [beq_iff_eq, hvox3 pe hpe]
    simp only [List.map_cons, List.headD_cons]
  rw [if_pos hall]

theorem getD_take (s : List α) (k t : ℕ) (d : α) (ht : t < k) :
    (s.take k).getD t d = s.getD t d := by
  rw [List.getD_eq_getElem?_getD, List.getD_eq_getElem?_getD,
    List.getElem?_take_of_lt ht]

theorem foldr_min_ge (xs : List ℤ) (i c : ℤ) (hi : c ≤ i)
    (hx : ∀ x ∈ xs, c ≤ x) : c ≤ xs.foldr min i := by
  induction xs with
  | nil => exact hi
  | cons y ys ih =>
      exact le_min (hx y (List.mem_cons_self y ys))
        (ih (fun x h => hx x (List.mem_cons_of_mem y h)))

/-- **C3** (confirmed): in the finite regime (finite voxel data, finite
echo times with nonzero sum), `me_combine` computes at every voxel the
echo-time weighted mean `Σ(echo_i·TE_i)/Σ(TE_i)` under algorithm `TE`
and the unweighted per-voxel mean under `average`, on each combination
path of the code: 4-D echo sets with equal sample counts (first
conjunct), 3-D echo sets (second conjunct), and 4-D echo sets whose
differing sample counts form a recoverable single truncation, where
after truncation the formulas hold at every voxel and every timepoint
of the truncated temporal extent (third conjunct). -/
theorem multiecho_C3 (files : List (Image × EF)) (ws : Option (List EF))
    (vols : ℤ) (medata : List (Image × EF))
    (hload : loadMEData files ws = .ok medata)
    (hne : medata ≠ [])
    (htes : (medata.map Prod.snd).all EF.isFinite = true)
    (hsum : ((medata.map Prod.snd).map EF.toQ).sum ≠ 0) :
    ((∀ pe ∈ medata, pe.1.ndim = 4) →
     (∀ pe ∈ medata, ∀ s ∈ echoData pe.1, s.length = ((echoData pe.1).headD []).length) →
     (∀ v ∈ medata.map (fun pe => echoData pe.1), v.length = ((medata.map (fun pe => echoData pe.1)).headD []).length) →
     (((medata.map (fun pe => echoData pe.1)).map (fun v => ((v.headD []).length : ℤ))).dedup.length ≤ 1) →
     (∀ pe ∈ medata, ∀ s ∈ echoData pe.1, ∀ x ∈ s, x.isFinite = true) →
     (1 ≤ (echoData (medata.headD (Image.vol3 [], EF.fin 0)).1).length) →
     (1 ≤ ((echoData (medata.headD (Image.vol3 [], EF.fin 0)).1).headD []).length) →
     ∃ V W : List (List EF),
      meCombine files "TE" ws vols = .ok (.ok (Image.vol4 V)) ∧
      meCombine files "average" ws vols = .ok (.ok (Image.vol4 W)) ∧
      ∀ i t, i < (echoData (medata.headD (Image.vol3 [], EF.fin 0)).1).length → t < ((echoData (medata.headD (Image.vol3 [], EF.fin 0)).1).headD []).length →
        (V.getD i []).getD t (EF.fin 0)
          = EF.fin ((List.zipWith (fun d w => EF.toQ d * EF.toQ w)
              (medata.map (fun pe => ((echoData pe.1).getD i []).getD t (EF.fin 0))) (medata.map Prod.snd)).sum / ((medata.map Prod.snd).map EF.toQ).sum) ∧
        (W.getD i []).getD t (EF.fin 0)
          = EF.fin (((medata.map (fun pe => ((echoData pe.1).getD i []).getD t (EF.fin 0))).map EF.toQ).sum / (medata.length : ℚ))) ∧
    ((∀ pe ∈ medata, pe.1.ndim = 3) →
     (∀ pe ∈ medata, (echoData3 pe.1).length = (echoData3 (medata.headD (Image.vol3 [], EF.fin 0)).1).length) →
     (∀ pe ∈ medata, ∀ x ∈ echoData3 pe.1, x.isFinite = true) →
     (1 ≤ (echoData3 (medata.headD (Image.vol3 [], EF.fin 0)).1).length) →
     ∃ V W : List EF,
      meCombine files "TE" ws vols = .ok (.ok (Image.vol3 V)) ∧
      meCombine files "average" ws vols = .ok (.ok (Image.vol3 W)) ∧
      ∀ i, i < (echoData3 (medata.headD (Image.vol3 [], EF.fin 0)).1).length →
        V.getD i (EF.fin 0)
          = EF.fin ((List.zipWith (fun d w => EF.toQ d * EF.toQ w)
              (medata.map (fun pe => (echoData3 pe.1).getD i (EF.fin 0))) (medata.map Prod.snd)).sum / ((medata.map Prod.snd).map EF.toQ).sum) ∧
        W.getD i (EF.fin 0)
          = EF.fin (((medata.map (fun pe => (echoData3 pe.1).getD i (EF.fin 0))).map EF.toQ).sum / (medata.length : ℚ))) ∧
    ((∀ pe ∈ medata, pe.1.ndim = 4) →
     (∀ pe ∈ medata, ∀ s ∈ echoData pe.1, s.length = ((echoData pe.1).headD []).length) →
     (∀ v ∈ medata.map (fun pe => echoData pe.1), v.length = ((medata.map (fun pe => echoData pe.1)).headD []).length) →
     (((medata.map (fun pe => echoData pe.1)).map (fun v => ((v.headD []).length : ℤ))).dedup.length > 1) →
     (recoverable ((medata.map (fun pe => echoData pe.1)).map (fun v => ((v.headD []).length : ℤ))) = true) →
     (∀ pe ∈ medata, ∀ s ∈ echoData pe.1, ∀ x ∈ s, x.isFinite = true) →
     (1 ≤ (echoData (medata.headD (Image.vol3 [], EF.fin 0)).1).length) →
     (∀ pe ∈ medata, 1 ≤ ((echoData pe.1).headD []).length) →
     ∃ V W : List (List EF),
      meCombine files "TE" ws vols = .ok (.ok (Image.vol4 V)) ∧
      meCombine files "average" ws vols = .ok (.ok (Image.vol4 W)) ∧
      ∀ i t, i < (echoData (medata.headD (Image.vol3 [], EF.fin 0)).1).length → t < (((medata.map (fun pe => echoData pe.1)).map (fun v => ((v.headD []).length : ℤ))).foldr min (((medata.map (fun pe => echoData pe.1)).map (fun v => ((v.headD []).length : ℤ))).headD 0)).toNat →
        (V.getD i []).getD t (EF.fin 0)
          = EF.fin ((List.zipWith (fun d w => EF.toQ d * EF.toQ w)
              (medata.map (fun pe => ((echoData pe.1).getD i []).getD t (EF.fin 0))) (medata.map Prod.snd)).sum / ((medata.map Prod.snd).map EF.toQ).sum) ∧
        (W.getD i []).getD t (EF.fin 0)
          = EF.fin (((medata.map (fun pe => ((echoData pe.1).getD i []).getD t (EF.fin 0))).map EF.toQ).sum / (medata.length : ℚ))) := by
  refine ⟨?_, ?_, ?_⟩
  · intro h4 hwf hvox hdedup hfin hnv hc0
    have hstack := stackAT_equal_counts medata hne h4 hwf hvox hdedup
    have hceq := counts_equal medata hne hdedup
    have hEmpty : medata.isEmpty = false := by
      cases medata with
      | nil => exact absurd rfl hne
      | cons a l => rfl
    have hvh : (medata.map (fun pe => echoData pe.1)).headD []
        = echoData (medata.headD (Image.vol3 [], EF.fin 0)).1 := by
      obtain ⟨p, rest, rfl⟩ := List.exists_cons_of_ne_nil hne
      simp only [List.map_cons, List.headD_cons]
    have hilen : ∀ pe ∈ medata, (echoData pe.1).length = (echoData (medata.headD (Image.vol3 [], EF.fin 0)).1).length := by
      intro pe hpe
      have h1 := hvox _ (List.mem_map_of_mem (fun pe => echoData pe.1) hpe)
      rw [hvh] at h1
      exact h1
    have hslen : ∀ pe ∈ medata, ∀ s ∈ echoData pe.1, s.length = ((echoData (medata.headD (Image.vol3 [], EF.fin 0)).1).headD []).length := by
      intro pe hpe s hs
      rw [hwf pe hpe s hs]
      exact hceq pe hpe
    have hcond : ((stack4 (medata.map (fun pe => echoData pe.1))).headD []).headD []
        = (medata.map (fun pe => echoData pe.1)).map (fun v => (v.getD 0 []).getD 0 (EF.fin 0)) :=
      stack4_head00 _ (by rw [hvh]; exact hnv) (by rw [hvh]; exact hc0)
    have hlen1 : ((medata.map Prod.snd).length ==
        (((stack4 (medata.map (fun pe => echoData pe.1))).headD []).headD []).length) = true := by
      rw [beq_iff_eq, hcond, List.length_map, List.length_map, List.length_map]
    have hz : ¬ ((npSum (medata.map Prod.snd) == EF.fin 0) = true) := by
      rw [npSum_fin_toQ _ htes, beq_iff_eq]
      intro hcon
      injection hcon with h1
      exact hsum h1
    have hTEavg : npAverage4 (stack4 (medata.map (fun pe => echoData pe.1))) (.scalars (medata.map Prod.snd))
        = .ok ((stack4 (medata.map (fun pe => echoData pe.1))).map
            (fun vox => vox.map (fun ds => avgVec ds (medata.map Prod.snd)))) := by
      unfold npAverage4
      dsimp only
      rw [if_pos hlen1, if_neg hz]
    have hTE : meCombine files "TE" ws vols
        = .ok (.ok (Image.vol4
            (((stack4 (medata.map (fun pe => echoData pe.1))).map
              (fun vox => vox.map (fun ds => avgVec ds (medata.map Prod.snd)))).map
                (fun r => r.map nanToNum)))) := by
      unfold meCombine
      rw [hload]
      dsimp only
      rw [hEmpty]
      rw [if_neg (by simp)]
      rw [show computeWspec "TE" medata ws vols
          = .ok (.scalars (medata.map Prod.snd)) from rfl]
      dsimp only
      rw [hstack]
      dsimp only
      rw [hTEavg]
    have hAavg : npAverage4 (stack4 (medata.map (fun pe => echoData pe.1))) WeightSpec.noneW
        = .ok ((stack4 (medata.map (fun pe => echoData pe.1))).map (fun vox => vox.map npMean)) := rfl
    have hA : meCombine files "average" ws vols
        = .ok (.ok (Image.vol4
            (((stack4 (medata.map (fun pe => echoData pe.1))).map (fun vox => vox.map npMean)).map
              (fun r => r.map nanToNum)))) := by
      unfold meCombine
      rw [hload]
      dsimp only
      rw [hEmpty]
      rw [if_neg (by simp)]
      rw [show computeWspec "average" medata ws vols = .ok WeightSpec.noneW from rfl]
      dsimp only
      rw [hstack]
      dsimp only
      rw [hAavg]
    refine ⟨_, _, hTE, hA, ?_⟩
    intro i t hi ht
    have hi2 : i < ((medata.map (fun pe => echoData pe.1)).headD []).length := by
      rw [hvh]; exact hi
    have ht2 : t < (((medata.map (fun pe => echoData pe.1)).headD []).headD []).length := by
      rw [hvh]; exact ht
    have hst4len : i < (stack4 (medata.map (fun pe => echoData pe.1))).length := by
      rw [stack4_length]
      exact hi2
    have hrowlen : t < ((stack4 (medata.map (fun pe => echoData pe.1))).getD i []).length := by
      rw [stack4_row (medata.map (fun pe => echoData pe.1)) i hi2, List.length_map, List.length_range]
      exact ht2
    have hcell : (medata.map (fun pe => echoData pe.1)).map (fun v => (v.getD i []).getD t (EF.fin 0)) = (medata.map (fun pe => ((echoData pe.1).getD i []).getD t (EF.fin 0))) := by
      rw [List.map_map]
      rfl
    have hcellD := stack4_getD (medata.map (fun pe => echoData pe.1)) i t hi2 ht2
    have hcellfin : (medata.map (fun pe => ((echoData pe.1).getD i []).getD t (EF.fin 0))).all EF.isFinite = true := by
      rw [List.all_eq_true]
      intro x hx
      obtain ⟨pe, hpe, rfl⟩ := List.mem_map.mp hx
      have hser : (echoData pe.1).getD i [] ∈ echoData pe.1 :=
        getD_mem _ _ _ (by rw [hilen pe hpe]; exact hi)
      refine hfin pe hpe _ hser _ (getD_mem _ _ _ ?_)
      rw [hslen pe hpe _ hser]
      exact ht
    have hcTE2 : t < (((stack4 (medata.map (fun pe => echoData pe.1))).map
        (fun vox => vox.map (fun ds => avgVec ds (medata.map Prod.snd)))).getD i []).length := by
      rw [getD_map _ _ i [] [] hst4len, List.length_map]
      exact hrowlen
    have hcA2 : t < (((stack4 (medata.map (fun pe => echoData pe.1))).map
        (fun vox => vox.map npMean)).getD i []).length := by
      rw [getD_map _ _ i [] [] hst4len, List.length_map]
      exact hrowlen
    constructor
    · rw [getD2_map_map _ nanToNum i t (EF.fin 0) (EF.fin 0)
        (by rw [List.length_map]; exact hst4len) hcTE2]
      rw [getD2_map_map _ _ i t [] (EF.fin 0) hst4len hrowlen]
      rw [hcellD, hcell]
      rw [avgVec_fin _ _ hcellfin htes hsum]
      rfl
    · rw [getD2_map_map _ nanToNum i t (EF.fin 0) (EF.fin 0)
        (by rw [List.length_map]; exact hst4len) hcA2]
      rw [getD2_map_map _ _ i t [] (EF.fin 0) hst4len hrowlen]
      rw [hcellD, hcell]
      rw [npMean_fin _ hcellfin (by
        rw [List.length_map]
        intro hcon
        exact hne (List.length_eq_zero.mp hcon))]
      rw [List.length_map]
      rfl

  · intro h3 hvox3 hfin3 hnv3
    have hEmpty : medata.isEmpty = false := by
      cases medata with
      | nil => exact absurd rfl hne
      | cons a l => rfl
    have hstack := stackAT_3D medata hne h3 hvox3
    have hvh3 : (medata.map (fun pe => echoData3 pe.1)).headD []
        = echoData3 (medata.headD (Image.vol3 [], EF.fin 0)).1 := by
      obtain ⟨p, rest, rfl⟩ := List.exists_cons_of_ne_nil hne
      simp only [List.map_cons, List.headD_cons]
    have hz : ¬ ((npSum (medata.map Prod.snd) == EF.fin 0) = true) := by
      rw [npSum_fin_toQ _ htes, beq_iff_eq]
      intro hcon
      injection hcon with h1
      exact hsum h1
    have hA0 : 0 < ((medata.map (fun pe => echoData3 pe.1)).headD []).length := by
      rw [hvh3]
      exact hnv3
    have hhead : (stackLast (medata.map (fun pe => echoData3 pe.1)) (EF.fin 0)).headD []
        = (medata.map (fun pe => echoData3 pe.1)).map (fun v => v.getD 0 (EF.fin 0)) := by
      rw [headD_eq_getD (stackLast (medata.map (fun pe => echoData3 pe.1)) (EF.fin 0)) []]
      exact stackLast_getD _ _ 0 hA0
    have hlen1 : ((medata.map Prod.snd).length ==
        ((stackLast (medata.map (fun pe => echoData3 pe.1)) (EF.fin 0)).headD []).length) = true := by
      rw [beq_iff_eq, hhead]
      simp only [List.length_map]
    have hTEavg : npAverage3 (stackLast (medata.map (fun pe => echoData3 pe.1)) (EF.fin 0)) (.scalars (medata.map Prod.snd))
        = .ok ((stackLast (medata.map (fun pe => echoData3 pe.1)) (EF.fin 0)).map (fun ds => avgVec ds (medata.map Prod.snd))) := by
      unfold npAverage3
      dsimp only
      rw [if_pos hlen1, if_neg hz]
    have hTE : meCombine files "TE" ws vols
        = .ok (.ok (Image.vol3 (((stackLast (medata.map (fun pe => echoData3 pe.1)) (EF.fin 0)).map (fun ds => avgVec ds (medata.map Prod.snd))).map nanToNum))) := by
      unfold meCombine
      rw [hload]
      dsimp only
      rw [hEmpty]
      rw [if_neg (by simp)]
      rw [show computeWspec "TE" medata ws vols
          = .ok (.scalars (medata.map Prod.snd)) from rfl]
      dsimp only
      rw [hstack]
      dsimp only
      rw [hTEavg]
    have hAavg : npAverage3 (stackLast (medata.map (fun pe => echoData3 pe.1)) (EF.fin 0)) WeightSpec.noneW
        = .ok ((stackLast (medata.map (fun pe => echoData3 pe.1)) (EF.fin 0)).map npMean) := rfl
    have hA : meCombine files "average" ws vols
        = .ok (.ok (Image.vol3 (((stackLast (medata.map (fun pe => echoData3 pe.1)) (EF.fin 0)).map npMean).map nanToNum))) := by
      unfold meCombine
      rw [hload]
      dsimp only
      rw [hEmpty]
      rw [if_neg (by simp)]
      rw [show computeWspec "average" medata ws vols = .ok WeightSpec.noneW from rfl]
      dsimp only
      rw [hstack]
      dsimp only
      rw [hAavg]
    refine ⟨_, _, hTE, hA, ?_⟩
    intro i hi
    have hiA : i < (stackLast (medata.map (fun pe => echoData3 pe.1)) (EF.fin 0)).length := by
      rw [stackLast_length, hvh3]
      exact hi
    have hrow := stackLast_getD (medata.map (fun pe => echoData3 pe.1)) (EF.fin 0) i
      (by rw [hvh3]; exact hi)
    have hcell : (medata.map (fun pe => echoData3 pe.1)).map (fun v => v.getD i (EF.fin 0))
        = medata.map (fun pe => (echoData3 pe.1).getD i (EF.fin 0)) := by
      rw [List.map_map]
      rfl
    have hcellfin : (medata.map (fun pe => (echoData3 pe.1).getD i (EF.fin 0))).all EF.isFinite = true := by
      rw [List.all_eq_true]
      intro x hx
      obtain ⟨pe, hpe, rfl⟩ := List.mem_map.mp hx
      refine hfin3 pe hpe _ (getD_mem _ _ _ ?_)
      rw [hvox3 pe hpe]
      exact hi
    constructor
    · rw [getD_map _ nanToNum i (EF.fin 0) (EF.fin 0)
        (by rw [List.length_map]; exact hiA)]
      rw [getD_map _ (fun ds => avgVec ds (medata.map Prod.snd)) i (EF.fin 0) [] hiA]
      rw [hrow, hcell]
      rw [avgVec_fin _ _ hcellfin htes hsum]
      rfl
    · rw [getD_map _ nanToNum i (EF.fin 0) (EF.fin 0)
        (by rw [List.length_map]; exact hiA)]
      rw [getD_map _ npMean i (EF.fin 0) [] hiA]
      rw [hrow, hcell]
      rw [npMean_fin _ hcellfin (by
        rw [List.length_map]
        intro hcon
        exact hne (List.length_eq_zero.mp hcon))]
      rw [List.length_map]
      rfl
  · intro h4 hwf hvox hdedup hrec hfin hnv hall1
    have hEmpty : medata.isEmpty = false := by
      cases medata with
      | nil => exact absurd rfl hne
      | cons a l => rfl
    have hvh : (medata.map (fun pe => echoData pe.1)).headD []
        = echoData (medata.headD (Image.vol3 [], EF.fin 0)).1 := by
      obtain ⟨p, rest, rfl⟩ := List.exists_cons_of_ne_nil hne
      simp only [List.map_cons, List.headD_cons]
    obtain ⟨k, hk⟩ : ∃ k, k = (((medata.map (fun pe => echoData pe.1)).map (fun v => ((v.headD []).length : ℤ))).foldr min (((medata.map (fun pe => echoData pe.1)).map (fun v => ((v.headD []).length : ℤ))).headD 0)).toNat := ⟨_, rfl⟩
    rw [← hk]
    have hstack := stackAT_trunc medata (medata.map (fun pe => echoData pe.1))
      ((medata.map (fun pe => echoData pe.1)).map (fun v => ((v.headD []).length : ℤ))) k rfl rfl hk hne h4 hwf hvox hdedup hrec
    have hge1 : (1:ℤ) ≤ ((medata.map (fun pe => echoData pe.1)).map (fun v => ((v.headD []).length : ℤ))).foldr min (((medata.map (fun pe => echoData pe.1)).map (fun v => ((v.headD []).length : ℤ))).headD 0) := by
      apply foldr_min_ge
      · cases hmed : medata with
        | nil => exact absurd hmed hne
        | cons p rest =>
            simp only [hmed, List.map_cons, List.headD_cons]
            exact_mod_cast hall1 p (by rw [hmed]; exact List.mem_cons_self p rest)
      · intro x hx
        obtain ⟨v, hv, rfl⟩ := List.mem_map.mp hx
        obtain ⟨pe, hpe, rfl⟩ := List.mem_map.mp hv
        exact_mod_cast hall1 pe hpe
    have hk1 : 1 ≤ k := by omega
    have hkle : ∀ v ∈ medata.map (fun pe => echoData pe.1), k ≤ (v.headD []).length := by
      intro v hv
      have hmem : ((v.headD []).length : ℤ) ∈ (medata.map (fun pe => echoData pe.1)).map (fun v => ((v.headD []).length : ℤ)) :=
        List.mem_map_of_mem _ hv
      have hle := foldr_min_le_mem ((medata.map (fun pe => echoData pe.1)).map (fun v => ((v.headD []).length : ℤ))) (((medata.map (fun pe => echoData pe.1)).map (fun v => ((v.headD []).length : ℤ))).headD 0) _ hmem
      omega
    have hmemh : (medata.map (fun pe => echoData pe.1)).headD []
        ∈ medata.map (fun pe => echoData pe.1) := by
      rw [headD_eq_getD (medata.map (fun pe => echoData pe.1)) []]
      exact getD_mem _ _ _ (by rw [List.length_map]; exact List.length_pos.mpr hne)
    have hkh : k ≤ ((echoData (medata.headD (Image.vol3 [], EF.fin 0)).1).headD []).length := by
      have h2 := hkle _ hmemh
      rw [hvh] at h2
      exact h2
    have hsliceh : (((medata.map (fun pe => echoData pe.1)).map (fun v => v.map (List.take k))).headD [])
        = (echoData (medata.headD (Image.vol3 [], EF.fin 0)).1).map (List.take k) := by
      obtain ⟨p, rest, rfl⟩ := List.exists_cons_of_ne_nil hne
      simp only [List.map_cons, List.headD_cons]
    have hslicehh : ((((medata.map (fun pe => echoData pe.1)).map (fun v => v.map (List.take k))).headD []).headD []).length = k := by
      rw [hsliceh,
        headD_eq_getD ((echoData (medata.headD (Image.vol3 [], EF.fin 0)).1).map (List.take k)) [],
        getD_map (echoData (medata.headD (Image.vol3 [], EF.fin 0)).1) (List.take k) 0 [] [] hnv,
        List.length_take,
        ← headD_eq_getD (echoData (medata.headD (Image.vol3 [], EF.fin 0)).1) []]
      omega
    have h1s : 1 ≤ (((medata.map (fun pe => echoData pe.1)).map (fun v => v.map (List.take k))).headD []).length := by
      rw [hsliceh, List.length_map]
      exact hnv
    have h1t : 1 ≤ ((((medata.map (fun pe => echoData pe.1)).map (fun v => v.map (List.take k))).headD []).headD []).length := by
      rw [hslicehh]
      exact hk1
    have hcond : ((stack4 ((medata.map (fun pe => echoData pe.1)).map (fun v => v.map (List.take k)))).headD []).headD []
        = ((medata.map (fun pe => echoData pe.1)).map (fun v => v.map (List.take k))).map (fun v => (v.getD 0 []).getD 0 (EF.fin 0)) :=
      stack4_head00 _ h1s h1t
    have hlen1 : ((medata.map Prod.snd).length ==
        (((stack4 ((medata.map (fun pe => echoData pe.1)).map (fun v => v.map (List.take k)))).headD []).headD []).length) = true := by
      rw [beq_iff_eq, hcond]
      simp only [List.length_map]
    have hz : ¬ ((npSum (medata.map Prod.snd) == EF.fin 0) = true) := by
      rw [npSum_fin_toQ _ htes, beq_iff_eq]
      intro hcon
      injection hcon with h1
      exact hsum h1
    have hTEavg : npAverage4 (stack4 ((medata.map (fun pe => echoData pe.1)).map (fun v => v.map (List.take k)))) (.scalars (medata.map Prod.snd))
        = .ok ((stack4 ((medata.map (fun pe => echoData pe.1)).map (fun v => v.map (List.take k)))).map
            (fun vox => vox.map (fun ds => avgVec ds (medata.map Prod.snd)))) := by
      unfold npAverage4
      dsimp only
      rw [if_pos hlen1, if_neg hz]
    have hTE : meCombine files "TE" ws vols
        = .ok (.ok (Image.vol4
            (((stack4 ((medata.map (fun pe => echoData pe.1)).map (fun v => v.map (List.take k)))).map
              (fun vox => vox.map (fun ds => avgVec ds (medata.map Prod.snd)))).map
                (fun r => r.map nanToNum)))) := by
      unfold meCombine
      rw [hload]
      dsimp only
      rw [hEmpty]
      rw [if_neg (by simp)]
      rw [show computeWspec "TE" medata ws vols
          = .ok (.scalars (medata.map Prod.snd)) from rfl]
      dsimp only
      rw [hstack]
      dsimp only
      rw [hTEavg]
    have hAavg : npAverage4 (stack4 ((medata.map (fun pe => echoData pe.1)).map (fun v => v.map (List.take k)))) WeightSpec.noneW
        = .ok ((stack4 ((medata.map (fun pe => echoData pe.1)).map (fun v => v.map (List.take k)))).map (fun vox => vox.map npMean)) := rfl
    have hA : meCombine files "average" ws vols
        = .ok (.ok (Image.vol4
            (((stack4 ((medata.map (fun pe => echoData pe.1)).map (fun v => v.map (List.take k)))).map (fun vox => vox.map npMean)).map
              (fun r => r.map nanToNum)))) := by
      unfold meCombine
      rw [hload]
      dsimp only
      rw [hEmpty]
      rw [if_neg (by simp)]
      rw [show computeWspec "average" medata ws vols = .ok WeightSpec.noneW from rfl]
      dsimp only
      rw [hstack]
      dsimp only
      rw [hAavg]
    refine ⟨_, _, hTE, hA, ?_⟩
    intro i t hi ht
    have hi2 : i < (((medata.map (fun pe => echoData pe.1)).map (fun v => v.map (List.take k))).headD []).length := by
      rw [hsliceh, List.length_map]
      exact hi
    have ht2 : t < ((((medata.map (fun pe => echoData pe.1)).map (fun v => v.map (List.take k))).headD []).headD []).length := by
      rw [hslicehh]
      exact ht
    have hst4len : i < (stack4 ((medata.map (fun pe => echoData pe.1)).map (fun v => v.map (List.take k)))).length := by
      rw [stack4_length]
      exact hi2
    have hrowlen : t < ((stack4 ((medata.map (fun pe => echoData pe.1)).map (fun v => v.map (List.take k)))).getD i []).length := by
      rw [stack4_row ((medata.map (fun pe => echoData pe.1)).map (fun v => v.map (List.take k))) i hi2, List.length_map, List.length_range]
      exact ht2
    have hcellD := stack4_getD ((medata.map (fun pe => echoData pe.1)).map (fun v => v.map (List.take k))) i t hi2 ht2
    have hcell : ((medata.map (fun pe => echoData pe.1)).map (fun v => v.map (List.take k))).map (fun v => (v.getD i []).getD t (EF.fin 0))
        = medata.map (fun pe => ((echoData pe.1).getD i []).getD t (EF.fin 0)) := by
      rw [List.map_map, List.map_map]
      apply List.map_congr_left
      intro pe hpe
      dsimp only [Function.comp]
      rw [getD_map (echoData pe.1) (List.take k) i [] []
        (by
          have h2 := hvox _ (List.mem_map_of_mem (fun pe => echoData pe.1) hpe)
          rw [hvh] at h2
          rw [h2]
          exact hi)]
      exact getD_take _ k t (EF.fin 0) ht
    have hcellfin : (medata.map (fun pe => ((echoData pe.1).getD i []).getD t (EF.fin 0))).all EF.isFinite = true := by
      rw [List.all_eq_true]
      intro x hx
      obtain ⟨pe, hpe, rfl⟩ := List.mem_map.mp hx
      have hil : i < (echoData pe.1).length := by
        have h2 := hvox _ (List.mem_map_of_mem (fun pe => echoData pe.1) hpe)
        rw [hvh] at h2
        rw [h2]
        exact hi
      have hser : (echoData pe.1).getD i [] ∈ echoData pe.1 := getD_mem _ _ _ hil
      refine hfin pe hpe _ hser _ (getD_mem _ _ _ ?_)
      rw [hwf pe hpe _ hser]
      have h3 := hkle (echoData pe.1) (List.mem_map_of_mem (fun pe => echoData pe.1) hpe)
      omega
    have hcTE2 : t < (((stack4 ((medata.map (fun pe => echoData pe.1)).map (fun v => v.map (List.take k)))).map
        (fun vox => vox.map (fun ds => avgVec ds (medata.map Prod.snd)))).getD i []).length := by
      rw [getD_map _ _ i [] [] hst4len, List.length_map]
      exact hrowlen
    have hcA2 : t < (((stack4 ((medata.map (fun pe => echoData pe.1)).map (fun v => v.map (List.take k)))).map
        (fun vox => vox.map npMean)).getD i []).length := by
      rw [getD_map _ _ i [] [] hst4len, List.length_map]
      exact hrowlen
    constructor
    · rw [getD2_map_map _ nanToNum i t (EF.fin 0) (EF.fin 0)
        (by rw [List.length_map]; exact hst4len) hcTE2]
      rw [getD2_map_map _ _ i t [] (EF.fin 0) hst4len hrowlen]
      rw [hcellD, hcell]
      rw [avgVec_fin _ _ hcellfin htes hsum]
      rfl
    · rw [getD2_map_map _ nanToNum i t (EF.fin 0) (EF.fin 0)
        (by rw [List.length_map]; exact hst4len) hcA2]
      rw [getD2_map_map _ _ i t [] (EF.fin 0) hst4len hrowlen]
      rw [hcellD, hcell]
      rw [npMean_fin _ hcellfin (by
        rw [List.length_map]
        intro hcon
        exact hne (List.length_eq_zero.mp hcon))]
      rw [List.length_map]
      rfl

/-- Witness for C3: the three regimes at concrete echo sets — a 4-D
two-echo set with equal counts, a 3-D two-echo set, and a 4-D two-echo
set with the recoverable counts `[2, 1]`. -/
theorem multiecho_C3_witness :
    (∃ V W : List (List EF),
      meCombine ([(Image.vol4 [[EF.fin 2, EF.fin 4]], EF.fin 1), (Image.vol4 [[EF.fin 6, EF.fin 0]], EF.fin 3)] : List (Image × EF)) "TE" none 100 = .ok (.ok (Image.vol4 V)) ∧
      meCombine ([(Image.vol4 [[EF.fin 2, EF.fin 4]], EF.fin 1), (Image.vol4 [[EF.fin 6, EF.fin 0]], EF.fin 3)] : List (Image × EF)) "average" none 100 = .ok (.ok (Image.vol4 W)) ∧
      ∀ i t, i < (echoData (([(Image.vol4 [[EF.fin 2, EF.fin 4]], EF.fin 1), (Image.vol4 [[EF.fin 6, EF.fin 0]], EF.fin 3)] : List (Image × EF)).headD (Image.vol3 [], EF.fin 0)).1).length → t < ((echoData (([(Image.vol4 [[EF.fin 2, EF.fin 4]], EF.fin 1), (Image.vol4 [[EF.fin 6, EF.fin 0]], EF.fin 3)] : List (Image × EF)).headD (Image.vol3 [], EF.fin 0)).1).headD []).length →
        (V.getD i []).getD t (EF.fin 0)
          = EF.fin ((List.zipWith (fun d w => EF.toQ d * EF.toQ w)
              (([(Image.vol4 [[EF.fin 2, EF.fin 4]], EF.fin 1), (Image.vol4 [[EF.fin 6, EF.fin 0]], EF.fin 3)] : List (Image × EF)).map (fun pe => ((echoData pe.1).getD i []).getD t (EF.fin 0))) (([(Image.vol4 [[EF.fin 2, EF.fin 4]], EF.fin 1), (Image.vol4 [[EF.fin 6, EF.fin 0]], EF.fin 3)] : List (Image × EF)).map Prod.snd)).sum / ((([(Image.vol4 [[EF.fin 2, EF.fin 4]], EF.fin 1), (Image.vol4 [[EF.fin 6, EF.fin 0]], EF.fin 3)] : List (Image × EF)).map Prod.snd).map EF.toQ).sum) ∧
        (W.getD i []).getD t (EF.fin 0)
          = EF.fin (((([(Image.vol4 [[EF.fin 2, EF.fin 4]], EF.fin 1), (Image.vol4 [[EF.fin 6, EF.fin 0]], EF.fin 3)] : List (Image × EF)).map (fun pe => ((echoData pe.1).getD i []).getD t (EF.fin 0))).map EF.toQ).sum / (([(Image.vol4 [[EF.fin 2, EF.fin 4]], EF.fin 1), (Image.vol4 [[EF.fin 6, EF.fin 0]], EF.fin 3)] : List (Image × EF)).length : ℚ))) ∧
    (∃ V W : List EF,
      meCombine ([(Image.vol3 [EF.fin 1], EF.fin 1), (Image.vol3 [EF.fin 3], EF.fin 3)] : List (Image × EF)) "TE" none 100 = .ok (.ok (Image.vol3 V)) ∧
      meCombine ([(Image.vol3 [EF.fin 1], EF.fin 1), (Image.vol3 [EF.fin 3], EF.fin 3)] : List (Image × EF)) "average" none 100 = .ok (.ok (Image.vol3 W)) ∧
      ∀ i, i < (echoData3 (([(Image.vol3 [EF.fin 1], EF.fin 1), (Image.vol3 [EF.fin 3], EF.fin 3)] : List (Image × EF)).headD (Image.vol3 [], EF.fin 0)).1).length →
        V.getD i (EF.fin 0)
          = EF.fin ((List.zipWith (fun d w => EF.toQ d * EF.toQ w)
              (([(Image.vol3 [EF.fin 1], EF.fin 1), (Image.vol3 [EF.fin 3], EF.fin 3)] : List (Image × EF)).map (fun pe => (echoData3 pe.1).getD i (EF.fin 0))) (([(Image.vol3 [EF.fin 1], EF.fin 1), (Image.vol3 [EF.fin 3], EF.fin 3)] : List (Image × EF)).map Prod.snd)).sum / ((([(Image.vol3 [EF.fin 1], EF.fin 1), (Image.vol3 [EF.fin 3], EF.fin 3)] : List (Image × EF)).map Prod.snd).map EF.toQ).sum) ∧
        W.getD i (EF.fin 0)
          = EF.fin (((([(Image.vol3 [EF.fin 1], EF.fin 1), (Image.vol3 [EF.fin 3], EF.fin 3)] : List (Image × EF)).map (fun pe => (echoData3 pe.1).getD i (EF.fin 0))).map EF.toQ).sum / (([(Image.vol3 [EF.fin 1], EF.fin 1), (Image.vol3 [EF.fin 3], EF.fin 3)] : List (Image × EF)).length : ℚ))) ∧
    (∃ V W : List (List EF),
      meCombine ([(Image.vol4 [[EF.fin 1, EF.fin 2]], EF.fin 1), (Image.vol4 [[EF.fin 3]], EF.fin 2)] : List (Image × EF)) "TE" none 100 = .ok (.ok (Image.vol4 V)) ∧
      meCombine ([(Image.vol4 [[EF.fin 1, EF.fin 2]], EF.fin 1), (Image.vol4 [[EF.fin 3]], EF.fin 2)] : List (Image × EF)) "average" none 100 = .ok (.ok (Image.vol4 W)) ∧
      ∀ i t, i < (echoData (([(Image.vol4 [[EF.fin 1, EF.fin 2]], EF.fin 1), (Image.vol4 [[EF.fin 3]], EF.fin 2)] : List (Image × EF)).headD (Image.vol3 [], EF.fin 0)).1).length → t < (((([(Image.vol4 [[EF.fin 1, EF.fin 2]], EF.fin 1), (Image.vol4 [[EF.fin 3]], EF.fin 2)] : List (Image × EF)).map (fun pe => echoData pe.1)).map (fun v => ((v.headD []).length : ℤ))).foldr min (((([(Image.vol4 [[EF.fin 1, EF.fin 2]], EF.fin 1), (Image.vol4 [[EF.fin 3]], EF.fin 2)] : List (Image × EF)).map (fun pe => echoData pe.1)).map (fun v => ((v.headD []).length : ℤ))).headD 0)).toNat →
        (V.getD i []).getD t (EF.fin 0)
          = EF.fin ((List.zipWith (fun d w => EF.toQ d * EF.toQ w)
              (([(Image.vol4 [[EF.fin 1, EF.fin 2]], EF.fin 1), (Image.vol4 [[EF.fin 3]], EF.fin 2)] : List (Image × EF)).map (fun pe => ((echoData pe.1).getD i []).getD t (EF.fin 0))) (([(Image.vol4 [[EF.fin 1, EF.fin 2]], EF.fin 1), (Image.vol4 [[EF.fin 3]], EF.fin 2)] : List (Image × EF)).map Prod.snd)).sum / ((([(Image.vol4 [[EF.fin 1, EF.fin 2]], EF.fin 1), (Image.vol4 [[EF.fin 3]], EF.fin 2)] : List (Image × EF)).map Prod.snd).map EF.toQ).sum) ∧
        (W.getD i []).getD t (EF.fin 0)
          = EF.fin (((([(Image.vol4 [[EF.fin 1, EF.fin 2]], EF.fin 1), (Image.vol4 [[EF.fin 3]], EF.fin 2)] : List (Image × EF)).map (fun pe => ((echoData pe.1).getD i []).getD t (EF.fin 0))).map EF.toQ).sum / (([(Image.vol4 [[EF.fin 1, EF.fin 2]], EF.fin 1), (Image.vol4 [[EF.fin 3]], EF.fin 2)] : List (Image × EF)).length : ℚ))) :=
  ⟨(multiecho_C3 ([(Image.vol4 [[EF.fin 2, EF.fin 4]], EF.fin 1), (Image.vol4 [[EF.fin 6, EF.fin 0]], EF.fin 3)] : List (Image × EF)) none 100
      ([(Image.vol4 [[EF.fin 2, EF.fin 4]], EF.fin 1), (Image.vol4 [[EF.fin 6, EF.fin 0]], EF.fin 3)] : List (Image × EF))
      (by decide) (by decide) (by decide) (by decide)).1
      (by decide) (by decide) (by decide) (by decide) (by decide) (by decide) (by decide),
   (multiecho_C3 ([(Image.vol3 [EF.fin 1], EF.fin 1), (Image.vol3 [EF.fin 3], EF.fin 3)] : List (Image × EF)) none 100
      ([(Image.vol3 [EF.fin 1], EF.fin 1), (Image.vol3 [EF.fin 3], EF.fin 3)] : List (Image × EF))
      (by decide) (by decide) (by decide) (by decide)).2.1
      (by decide) (by decide) (by decide) (by decide),
   (multiecho_C3 ([(Image.vol4 [[EF.fin 1, EF.fin 2]], EF.fin 1), (Image.vol4 [[EF.fin 3]], EF.fin 2)] : List (Image × EF)) none 100
      ([(Image.vol4 [[EF.fin 1, EF.fin 2]], EF.fin 1), (Image.vol4 [[EF.fin 3]], EF.fin 2)] : List (Image × EF))
      (by decide) (by decide) (by decide) (by decide)).2.2
      (by decide) (by decide) (by decide) (by decide) (by decide) (by decide) (by decide) (by decide)⟩

theorem leKey_total (x y : EF) : EF.leKey x y = true ∨ EF.leKey y x = true := by
  cases x <;> cases y <;> simp [EF.leKey, EF.rankKey]
  exact le_total _ _

theorem leKey_trans (x y z : EF) (h1 : EF.leKey x y = true)
    (h2 : EF.leKey y z = true) : EF.leKey x z = true := by
  cases x <;> cases y <;> cases z <;>
    simp_all [EF.leKey, EF.rankKey]
  exact le_trans h1 h2

theorem npTake_pairs (xs : List α) (ps : List (ℕ × α))
    (h : ∀ p ∈ ps, xs.get? p.1 = some p.2) :
    npTake xs (ps.map Prod.fst) = .ok (ps.map Prod.snd) := by
  induction ps with
  | nil => rfl
  | cons p ps ih =>
      rw [List.map_cons, List.map_cons, npTake, exMap,
        h p (List.mem_cons_self p ps)]
      have ih2 := ih (fun q hq => h q (List.mem_cons_of_mem p hq))
      rw [npTake] at ih2
      rw [ih2]

theorem npTake_lt (xs : List α) (idx : List ℕ) (d : α)
    (h : ∀ j ∈ idx, j < xs.length) :
    npTake xs idx = .ok (idx.map (fun j => xs.getD j d)) := by
  induction idx with
  | nil => rfl
  | cons j idx ih =>
      have hj := h j (List.mem_cons_self j idx)
      have hget : xs.get? j = some (xs.getD j d) := by
        rw [List.get?_eq_getElem?, List.getElem?_eq_getElem hj,
          List.getD_eq_getElem?_getD, List.getElem?_eq_getElem hj]
        rfl
      rw [List.map_cons, npTake, exMap, hget]
      have ih2 := ih (fun q hq => h q (List.mem_cons_of_mem j hq))
      rw [npTake] at ih2
      rw [ih2]

/-- **C10** (confirmed): a caller-supplied `weights` list is used as
the echo-time list: the files and the list are sorted together in
lockstep by ascending list value (first conjunct: the loaded pairs are
a permutation of `(file_j, weights_j)` arranged so the weight column is
ascending); for `TE` the combination weights are exactly those sorted
values; `average` discards the supplied list and `PAID` ignores it
entirely, computing voxel-wise weights instead. -/
theorem multiecho_C10 (files : List (Image × EF)) (ws : List EF)
    (medata : List (Image × EF))
    (hws : ws ≠ []) (hlen : ws.length = files.length)
    (hload : loadMEData files (some ws) = .ok medata) :
    (∃ s : List ℕ, s.Perm (List.range files.length) ∧
      medata = s.map (fun j =>
        ((files.getD j (Image.vol3 [], EF.fin 0)).1, ws.getD j (EF.fin 0))) ∧
      List.Chain' (fun x y => EF.leKey x y = true) (medata.map Prod.snd)) ∧
    (∀ cw vols, computeWspec "TE" medata cw vols
      = .ok (.scalars (medata.map Prod.snd))) ∧
    (∀ vols, computeWspec "average" medata (some ws) vols = .ok .noneW) ∧
    (∀ vols, computeWspec "PAID" medata (some ws) vols
      = computeWspec "PAID" medata none vols) := by
  refine ⟨?_, fun cw vols => rfl, fun vols => rfl, fun vols => rfl⟩
  have hperm := List.perm_insertionSort pairLe ws.enum
  have hmemSP : ∀ p ∈ List.insertionSort pairLe ws.enum, ws.get? p.1 = some p.2 := by
    intro p hp
    have hpe : p ∈ ws.enum := hperm.mem_iff.mp hp
    rw [List.get?_eq_getElem?]
    exact List.mk_mem_enum_iff_getElem?.mp hpe
  have hplt : ∀ p ∈ List.insertionSort pairLe ws.enum, p.1 < ws.length := by
    intro p hp
    have := hmemSP p hp
    rw [List.get?_eq_getElem?] at this
    exact (List.getElem?_eq_some_iff.mp this).1
  have hEmptyW : ws.isEmpty = false := by
    cases ws with
    | nil => exact absurd rfl hws
    | cons a l => rfl
  have hjlt : ∀ j ∈ (List.insertionSort pairLe ws.enum).map Prod.fst,
      j < (files.map Prod.fst).length := by
    intro j hj
    obtain ⟨p, hp, rfl⟩ := List.mem_map.mp hj
    rw [List.length_map, ← hlen]
    exact hplt p hp
  have hcompute : loadMEData files (some ws)
      = .ok ((((List.insertionSort pairLe ws.enum).map Prod.fst).map
          (fun j => (files.map Prod.fst).getD j (Image.vol3 []))).zip
            ((List.insertionSort pairLe ws.enum).map Prod.snd)) := by
    unfold loadMEData
    dsimp only
    rw [hEmptyW]
    rw [if_neg (by simp)]
    rw [show argsortEF ws
        = (List.insertionSort pairLe ws.enum).map Prod.fst from rfl]
    rw [npTake_pairs ws _ hmemSP]
    rw [npTake_lt (files.map Prod.fst) _ (Image.vol3 []) hjlt]
  rw [hcompute] at hload
  have hmed : medata
      = (((List.insertionSort pairLe ws.enum).map Prod.fst).map
          (fun j => (files.map Prod.fst).getD j (Image.vol3 []))).zip
            ((List.insertionSort pairLe ws.enum).map Prod.snd) := by
    injection hload with h1
    exact h1.symm
  refine ⟨(List.insertionSort pairLe ws.enum).map Prod.fst, ?_, ?_, ?_⟩
  · -- permutation of range
    have h1 : ((List.insertionSort pairLe ws.enum).map Prod.fst).Perm
        (ws.enum.map Prod.fst) := hperm.map Prod.fst
    have h2 : ws.enum.map Prod.fst = List.range files.length := by
      rw [show ws.enum = ws.enumFrom 0 from rfl, List.enumFrom_map_fst,
        ← List.range_eq_range', hlen]
    exact h2 ▸ h1
  · -- the lockstep pairing
    rw [hmed]
    have hsnd : (List.insertionSort pairLe ws.enum).map Prod.snd
        = ((List.insertionSort pairLe ws.enum).map Prod.fst).map
            (fun j => ws.getD j (EF.fin 0)) := by
      rw [List.map_map]
      apply List.map_congr_left
      intro p hp
      have := hmemSP p hp
      show p.2 = ws.getD p.1 (EF.fin 0)
      rw [List.getD_eq_getElem?_getD, ← List.get?_eq_getElem?, this]
      rfl
    have hfst : ((List.insertionSort pairLe ws.enum).map Prod.fst).map
        (fun j => (files.map Prod.fst).getD j (Image.vol3 []))
        = ((List.insertionSort pairLe ws.enum).map Prod.fst).map
            (fun j => (files.getD j (Image.vol3 [], EF.fin 0)).1) := by
      apply List.map_congr_left
      intro j hj
      exact getD_map files Prod.fst j _ _ (by have h := hjlt j hj; rwa [List.length_map] at h)
    rw [hsnd, hfst, List.zip_map']
  · -- the weight column is ascending
    rw [hmed, List.map_snd_zip _ _ (by simp)]
    haveI hT : IsTotal (ℕ × EF) pairLe :=
      ⟨fun p q => by unfold pairLe; exact leKey_total p.2 q.2⟩
    haveI hTr : IsTrans (ℕ × EF) pairLe :=
      ⟨fun p q r h1 h2 => leKey_trans p.2 q.2 r.2 h1 h2⟩
    have hsorted := List.sorted_insertionSort pairLe ws.enum
    have hpw : ((List.insertionSort pairLe ws.enum).map Prod.snd).Pairwise
        (fun x y => EF.leKey x y = true) := by
      rw [List.pairwise_map]
      exact hsorted
    exact hpw.chain'

theorem multiecho_C10_witness :
    ([EF.fin 3, EF.fin 1] : List EF) ≠ [] ∧
    ([EF.fin 3, EF.fin 1] : List EF).length
      = ([(Image.vol3 [EF.fin 1], EF.fin 9), (Image.vol3 [EF.fin 2], EF.fin 8)]
          : List (Image × EF)).length ∧
    loadMEData [(Image.vol3 [EF.fin 1], EF.fin 9), (Image.vol3 [EF.fin 2], EF.fin 8)]
        (some [EF.fin 3, EF.fin 1])
      = .ok [(Image.vol3 [EF.fin 2], EF.fin 1), (Image.vol3 [EF.fin 1], EF.fin 3)] ∧
    ((∃ s : List ℕ, s.Perm (List.range 2) ∧
        ([(Image.vol3 [EF.fin 2], EF.fin 1), (Image.vol3 [EF.fin 1], EF.fin 3)]
          : List (Image × EF))
          = s.map (fun j =>
              ((([(Image.vol3 [EF.fin 1], EF.fin 9), (Image.vol3 [EF.fin 2], EF.fin 8)]
                  : List (Image × EF)).getD j (Image.vol3 [], EF.fin 0)).1,
               ([EF.fin 3, EF.fin 1] : List EF).getD j (EF.fin 0))) ∧
        List.Chain' (fun x y => EF.leKey x y = true)
          (([(Image.vol3 [EF.fin 2], EF.fin 1), (Image.vol3 [EF.fin 1], EF.fin 3)]
            : List (Image × EF)).map Prod.snd)) ∧
      (∀ cw vols, computeWspec "TE"
          [(Image.vol3 [EF.fin 2], EF.fin 1), (Image.vol3 [EF.fin 1], EF.fin 3)] cw vols
        = .ok (.scalars [EF.fin 1, EF.fin 3])) ∧
      (∀ vols, computeWspec "average"
          [(Image.vol3 [EF.fin 2], EF.fin 1), (Image.vol3 [EF.fin 1], EF.fin 3)]
          (some [EF.fin 3, EF.fin 1]) vols = .ok .noneW) ∧
      (∀ vols, computeWspec "PAID"
          [(Image.vol3 [EF.fin 2], EF.fin 1), (Image.vol3 [EF.fin 1], EF.fin 3)]
          (some [EF.fin 3, EF.fin 1]) vols
        = computeWspec "PAID"
            [(Image.vol3 [EF.fin 2], EF.fin 1), (Image.vol3 [EF.fin 1], EF.fin 3)]
            none vols)) :=
  ⟨by decide, by decide, by decide,
   multiecho_C10
     [(Image.vol3 [EF.fin 1], EF.fin 9), (Image.vol3 [EF.fin 2], EF.fin 8)]
     [EF.fin 3, EF.fin 1]
     [(Image.vol3 [EF.fin 2], EF.fin 1), (Image.vol3 [EF.fin 1], EF.fin 3)]
     (by decide) (by decide) (by decide)⟩
